import Mathlib

/-!
# dna-close: G25 ancestry estimator

A shallow embedding of `solver.go`, of the vector algebra of `utlis.go`, of
the loader `parseG25File` of `parser.go` and of `displayResults` of `main.go`.

Numbers: the Go code computes in `float64`.  The embedding is written over an
arbitrary linearly ordered field `α` (exact arithmetic: `ℚ` to evaluate, `ℝ`
for the real-number reading), and the square root is a parameter `sqrt` of
the functions that call `math.Sqrt`.  Floating-point rounding, NaN and
overflow are not modelled.

Slices are lists.  An index expression `xs[i]` is `xs[i]?`: the value `none`
is the run-time panic of an index out of range.  A function that can panic
returns an `Option`; the solver itself returns an `Outcome`, which separates
a returned `error` value from a panic.
-/

set_option autoImplicit false

namespace DnaClose

/-! ## Data model (`parser.go`, `solver.go`) -/

/-- Population of `parser.go`: a labelled coordinate vector with its period. -/
structure Population (α : Type) where
  Label : String
  Coordinates : List α
  Period : String
  deriving DecidableEq, Repr, Inhabited

/-- AncestryResult of `solver.go`: one population with its proportion. -/
structure AncestryResult (α : Type) where
  Population : Population α
  Proportion : α
  deriving DecidableEq, Repr

/-- The three `fmt.Errorf` values that `solveAncestryProportions` returns. -/
inductive SolveError where
  | targetDimension (got : Nat)
  | emptyCatalog
  | populationDimension (index : Nat) (label : String) (got : Nat)
  deriving DecidableEq, Repr

/-- The kind `DimensionMismatch` of the error taxonomy: the two errors about a
vector that does not have 25 entries. -/
def SolveError.isDimensionMismatch : SolveError → Bool
  | .targetDimension _ => true
  | .emptyCatalog => false
  | .populationDimension _ _ _ => true

/-- The text of each error, as formatted by `fmt.Errorf` in `solver.go`. -/
def SolveError.message : SolveError → String
  | .targetDimension got =>
      "target must have exactly 25 dimensions, got " ++ toString got
  | .emptyCatalog => "no reference populations provided"
  | .populationDimension index label got =>
      "population " ++ toString index ++ " (" ++ label ++ ") has " ++ toString got ++
        " dimensions, expected 25"

/-- What a call of a Go function `f(...) (T, error)` can do: return a value
with a nil error, return an error with a nil value, or panic. -/
inductive Outcome (β : Type) where
  | ok (value : β)
  | error (err : SolveError)
  | panic
  deriving DecidableEq, Repr

section Defs

variable {α : Type} [LinearOrderedField α]

/-! ## Vector algebra (`utlis.go`) -/

/-- The value `sumSquares` accumulated by the loop of `euclideanDistance`, which
reads `v1[i]` and `v2[i]` for every `i < len(v1)`. -/
def sumSquaredDiffs (v1 v2 : List α) : Option α :=
  (List.range v1.length).foldlM
    (fun sumSquares i => do
      let a ← v1[i]?
      let b ← v2[i]?
      let diff := a - b
      pure (sumSquares + diff * diff))
    0

/-- The function `euclideanDistance` of `utlis.go`: panics (`none`) when the
lengths differ, otherwise the square root of the sum of squared differences. -/
def euclideanDistance (sqrt : α → α) (v1 v2 : List α) : Option α :=
  if v1.length ≠ v2.length then none
  else do
    let sumSquares ← sumSquaredDiffs v1 v2
    pure (sqrt sumSquares)

/-- The function `vectorSubtract` of `utlis.go`: panics when the lengths
differ, otherwise the vector of the differences `v1[i] - v2[i]`. -/
def vectorSubtract (v1 v2 : List α) : Option (List α) :=
  if v1.length ≠ v2.length then none
  else
    (List.range v1.length).mapM
      (fun i => do
        let a ← v1[i]?
        let b ← v2[i]?
        pure (a - b))

/-- The function `vectorScale` of `utlis.go`: every entry times `scalar`. -/
def vectorScale (v : List α) (scalar : α) : List α :=
  v.map (fun x => x * scalar)

/-- The function `dotProduct` of `utlis.go`: panics when the lengths differ,
otherwise the products `v1[i] * v2[i]` accumulated from `0.0`. -/
def dotProduct (v1 v2 : List α) : Option α :=
  if v1.length ≠ v2.length then none
  else
    (List.range v1.length).foldlM
      (fun sum i => do
        let a ← v1[i]?
        let b ← v2[i]?
        pure (sum + a * b))
      0

/-- The function `vectorNorm` of `utlis.go`: the square root of the squares
`val * val` accumulated from `0.0`. -/
def vectorNorm (sqrt : α → α) (v : List α) : α :=
  sqrt (v.foldl (fun sumSquares val => sumSquares + val * val) 0)

/-- The function `normalizeVector` of `utlis.go`: the vector scaled by zero
when its norm is below `1e-10`, and scaled by `1 / norm` otherwise. -/
def normalizeVector (sqrt : α → α) (v : List α) : List α :=
  let norm := vectorNorm sqrt v
  if norm < 1 / 10000000000 then
    vectorScale v 0
  else
    vectorScale v (1 / norm)

/-- The function `meanVector` of `utlis.go`.  The nil slice returned for an
empty collection is the empty list.  Otherwise `result` starts as
`len(vectors[0])` zeros, every vector is added to it entry by entry (with a
panic when its length is not that of the first), and every entry is divided
by the number of vectors. -/
def meanVector (vectors : List (List α)) : Option (List α) :=
  match vectors with
  | [] => some []
  | first :: _ => do
    let dimensions := first.length
    let sums ← vectors.foldlM
      (fun result v =>
        if v.length ≠ dimensions then none
        else
          (List.range dimensions).mapM
            (fun i => do
              let r ← result[i]?
              let x ← v[i]?
              pure (r + x)))
      (List.replicate dimensions 0)
    pure (sums.map (fun r => r / (vectors.length : α)))

/-! ## Solver (`solver.go`) -/

/-- Iteration cap of the descent loop. -/
def maxIterations : Nat := 10000

/-- Step size of the descent loop, `0.01`. -/
def learningRate : α := 1 / 100

/-- Convergence threshold of the descent loop, `1e-6`. -/
def convergenceThreshold : α := 1 / 1000000

/-- Threshold under which `projectToSimplex` falls back to uniform, `1e-10`. -/
def degenerateSum : α := 1 / 10000000000

/-- Entry `d` of `weightedAverage`: the inner loop `for i, pop := range
populations`, accumulating `weights[i] * pop.Coordinates[d]` from zero
(`pop` is `populations[i]`). -/
def weightedAverageAt (populations : List (Population α)) (weights : List α) (d : Nat) :
    Option α :=
  (List.range populations.length).foldlM
    (fun acc i => do
      let pop ← populations[i]?
      let w ← weights[i]?
      let c ← pop.Coordinates[d]?
      pure (acc + w * c))
    0

/-- The function `weightedAverage` of `solver.go`: a vector of length 25 whose
entry `d` is the weighted sum of the populations' coordinate `d`. -/
def weightedAverage (populations : List (Population α)) (weights : List α) :
    Option (List α) :=
  (List.range 25).mapM (weightedAverageAt populations weights)

/-- The innermost loop of the gradient computation: `weightedSum` for
dimension `d`, over `for j := range weights`. -/
def weightedSumAt (populations : List (Population α)) (weights : List α) (d : Nat) :
    Option α :=
  (List.range weights.length).foldlM
    (fun weightedSum j => do
      let w ← weights[j]?
      let pop ← populations[j]?
      let c ← pop.Coordinates[d]?
      pure (weightedSum + w * c))
    0

/-- The value `grad` for population `i`: the loop over the 25 dimensions adding
`2 * (weightedSum - target[d]) * populations[i].Coordinates[d]`. -/
def gradientAt (target : List α) (populations : List (Population α)) (weights : List α)
    (i : Nat) : Option α :=
  (List.range 25).foldlM
    (fun grad d => do
      let weightedSum ← weightedSumAt populations weights d
      let t ← target[d]?
      let pop ← populations[i]?
      let c ← pop.Coordinates[d]?
      pure (grad + 2 * (weightedSum - t) * c))
    0

/-- The slice `gradients`, of length `n = len(populations)`. -/
def computeGradients (target : List α) (populations : List (Population α))
    (weights : List α) : Option (List α) :=
  (List.range populations.length).mapM (gradientAt target populations weights)

/-- The update `weights[i] -= learningRate * gradients[i]` for `i` in
`range weights`. -/
def gradientStep (weights gradients : List α) : Option (List α) :=
  (List.range weights.length).mapM
    (fun i => do
      let w ← weights[i]?
      let g ← gradients[i]?
      pure (w - learningRate * g))

/-- The function `projectToSimplex` of `solver.go`, returning the slice it
leaves behind: negative entries are set to zero, the entries are summed from
`0.0`, and then every entry becomes `1 / len(weights)` when the sum is below
`1e-10` and is divided by the sum otherwise. -/
def projectToSimplex (weights : List α) : List α :=
  let clipped := weights.map (fun w => if w < 0 then 0 else w)
  let sum := clipped.foldl (fun sum w => sum + w) 0
  if sum < degenerateSum then
    clipped.map (fun _ => 1 / (weights.length : α))
  else
    clipped.map (fun w => w / sum)

/-- The test `math.Abs(prevError - currentError) < convergenceThreshold`.
`prevError` is `none` while it still holds its initial value `math.Inf(1)`:
the difference is then infinite and the test fails. -/
def converged (prevError : Option α) (currentError : α) : Bool :=
  match prevError with
  | none => false
  | some e => decide (|e - currentError| < convergenceThreshold)

/-- The descent loop of `solveAncestryProportions` with `remaining` iterations
left before `iter` reaches `maxIterations`; returns the weights at loop exit. -/
def solveLoop (sqrt : α → α) (target : List α) (populations : List (Population α)) :
    Nat → Option α → List α → Option (List α)
  | 0, _, weights => some weights
  | remaining + 1, prevError, weights => do
    let weighted ← weightedAverage populations weights
    let currentError ← euclideanDistance sqrt target weighted
    if converged prevError currentError then
      some weights
    else do
      let gradients ← computeGradients target populations weights
      let stepped ← gradientStep weights gradients
      solveLoop sqrt target populations remaining (some currentError)
        (projectToSimplex stepped)

/-- The validation loop `for i, pop := range populations`: the first
population, with its index, whose coordinates do not have length 25. -/
def firstBadPopulation (populations : List (Population α)) (i : Nat) :
    Option (Nat × Population α) :=
  match populations with
  | [] => none
  | pop :: rest =>
    if pop.Coordinates.length ≠ 25 then some (i, pop)
    else firstBadPopulation rest (i + 1)

/-- The initial weights: `n` entries `1.0 / float64(n)`. -/
def initialWeights (n : Nat) : List α :=
  List.replicate n (1 / (n : α))

/-- The result loop `for i := range populations`, pairing `populations[i]`
with `weights[i]`. -/
def buildResults (populations : List (Population α)) (weights : List α) :
    Option (List (AncestryResult α)) :=
  (List.range populations.length).mapM
    (fun i => do
      let pop ← populations[i]?
      let w ← weights[i]?
      pure { Population := pop, Proportion := w })

/-- The weights with which the descent loop of a solve exits. -/
def finalWeights (sqrt : α → α) (target : List α) (populations : List (Population α)) :
    Option (List α) :=
  solveLoop sqrt target populations maxIterations none (initialWeights populations.length)

/-- The checks at the top of `solveAncestryProportions` (lines 18 to 32), in
the order of the source: the error they return, or `none` when all pass. -/
def validateInputs (target : List α) (populations : List (Population α)) :
    Option SolveError :=
  if target.length ≠ 25 then
    some (.targetDimension target.length)
  else if populations.length = 0 then
    some .emptyCatalog
  else
    match firstBadPopulation populations 0 with
    | some (i, pop) => some (.populationDimension i pop.Label pop.Coordinates.length)
    | none => none

/-- The function `solveAncestryProportions` of `solver.go`: the checks, and
only when they pass the descent loop and the construction of the results. -/
def solveAncestryProportions (sqrt : α → α) (target : List α)
    (populations : List (Population α)) : Outcome (List (AncestryResult α)) :=
  match validateInputs target populations with
  | some err => .error err
  | none =>
    match finalWeights sqrt target populations with
    | none => .panic
    | some weights =>
      match buildResults populations weights with
      | none => .panic
      | some results => .ok results

/-- The part of the loop body that follows the convergence test: the slice
`gradients`, the gradient step, and the projection. -/
def loopUpdate (target : List α) (populations : List (Population α)) (weights : List α) :
    Option (List α) := do
  let gradients ← computeGradients target populations weights
  let stepped ← gradientStep weights gradients
  pure (projectToSimplex stepped)

/-- The weights after `k` applications of `loopUpdate`. -/
def applyUpdates (target : List α) (populations : List (Population α)) :
    Nat → List α → Option (List α)
  | 0, weights => some weights
  | k + 1, weights => (loopUpdate target populations weights).bind
      (applyUpdates target populations k)

/-! ### Result ranking -/

/-- One insertion of `sortSlice`: `x` is placed before the first element `y`
of the sorted list for which `less y x` fails. -/
def insertSorted {β : Type} (less : β → β → Bool) (x : β) : List β → List β
  | [] => [x]
  | y :: ys => if less y x then y :: insertSorted less x ys else x :: y :: ys

/-- Model of the library call `sort.Slice(data, less)`: an insertion sort by
`less`.  The Go library promises only a reordering of the slice that is
sorted by `less`, with no promise on the order of ties. -/
def sortSlice {β : Type} (less : β → β → Bool) : List β → List β
  | [] => []
  | x :: xs => insertSorted less x (sortSlice less xs)

/-- The function `sortAncestryResults` of `solver.go`: `sort.Slice` with
`less(i, j) = results[i].Proportion > results[j].Proportion`. -/
def sortAncestryResults (results : List (AncestryResult α)) : List (AncestryResult α) :=
  sortSlice (fun a b => decide (a.Proportion > b.Proportion)) results

/-! ### Presentation (`main.go`) -/

/-- The function `displayResults` of `main.go`, as the list of rows it prints:
for every result of the sorted list whose proportion exceeds `0.001`, the
label and the value `(Proportion / total) * 100` handed to `Printf`, where
`total` accumulates the proportions that exceed `0.001`.  The rounding of the
format `%6.2f` is not modelled. -/
def displayResults (results : List (AncestryResult α)) : List (String × α) :=
  let sorted := sortAncestryResults results
  let total := sorted.foldl
    (fun total result =>
      if result.Proportion > 1 / 1000 then total + result.Proportion else total)
    0
  sorted.filterMap
    (fun result =>
      if result.Proportion > 1 / 1000 then
        some (result.Population.Label, (result.Proportion / total) * 100)
      else none)

/-! ### Closed forms of the loops

The values the loops above compute when no index is out of range, written
with sums over index ranges.  They are used in the proofs only. -/

/-- Coordinate `d` of population `i`. -/
def coordAt (populations : List (Population α)) (i d : Nat) : α :=
  (populations.getD i default).Coordinates.getD d 0

/-- Closed form of `weightedAverageAt` and of `weightedSumAt`. -/
def mixtureAt (populations : List (Population α)) (weights : List α) (d : Nat) : α :=
  ((List.range populations.length).map
    (fun i => weights.getD i 0 * coordAt populations i d)).sum

/-- Closed form of `weightedAverage`. -/
def mixture (populations : List (Population α)) (weights : List α) : List α :=
  (List.range 25).map (mixtureAt populations weights)

/-- Closed form of `euclideanDistance` on vectors of equal length. -/
def distance (sqrt : α → α) (v1 v2 : List α) : α :=
  sqrt ((List.range v1.length).map
    (fun i => (v1.getD i 0 - v2.getD i 0) * (v1.getD i 0 - v2.getD i 0))).sum

/-- Closed form of `gradientAt`. -/
def gradAt (target : List α) (populations : List (Population α)) (weights : List α)
    (i : Nat) : α :=
  ((List.range 25).map
    (fun d => 2 * (mixtureAt populations weights d - target.getD d 0) *
      coordAt populations i d)).sum

/-- Closed form of `gradientStep` after `computeGradients`. -/
def steppedWeights (target : List α) (populations : List (Population α))
    (weights : List α) : List α :=
  (List.range weights.length).map
    (fun i => weights.getD i 0 - learningRate * gradAt target populations weights i)

/-- One pass of the loop body after the convergence test: gradient step, then
projection. -/
def updateWeights (target : List α) (populations : List (Population α))
    (weights : List α) : List α :=
  projectToSimplex (steppedWeights target populations weights)

/-- Closed form of `solveLoop`. -/
def descend (sqrt : α → α) (target : List α) (populations : List (Population α)) :
    Nat → Option α → List α → List α
  | 0, _, weights => weights
  | remaining + 1, prevError, weights =>
    if converged prevError (distance sqrt target (mixture populations weights)) then
      weights
    else
      descend sqrt target populations remaining
        (some (distance sqrt target (mixture populations weights)))
        (updateWeights target populations weights)

/-- Closed form of `buildResults`. -/
def resultsOf (populations : List (Population α)) (weights : List α) :
    List (AncestryResult α) :=
  (List.range populations.length).map
    (fun i => { Population := populations.getD i default, Proportion := weights.getD i 0 })

/-- The projector as the specification words it: with `s` the sum of
`max(w_i, 0)`, every entry becomes `1 / n` when `s < 1e-10`, and entry `i`
becomes `max(w_i, 0) / s` otherwise. -/
def projectToSimplexSpec (weights : List α) : List α :=
  let s := (weights.map (fun w => max w 0)).sum
  if s < 1 / 10000000000 then
    List.replicate weights.length (1 / (weights.length : α))
  else
    weights.map (fun w => max w 0 / s)

/-- The list `xs` reordered by the index list `idx`: entry `k` of the result
is `xs[idx[k]]`.  It is a permutation of `xs` when `idx` is a permutation of
the indices `0, ..., len(xs) - 1`. -/
def permute {β : Type} (idx : List Nat) (xs : List β) : List β :=
  idx.filterMap (fun i => xs[i]?)

/-! ### Scenario data -/

/-- The 25-dimensional unit vector with a one at position `k`. -/
def unitVector (k : Nat) : List α :=
  (List.range 25).map (fun i => if i = k then 1 else 0)

/-- The target `[0.5, 0.5, 0, ..., 0]` of the two-population scenario. -/
def halfHalfTarget : List α :=
  (List.range 25).map (fun i => if i < 2 then 1 / 2 else 0)

/-- A population with the given label and coordinates, period `"scenario"`. -/
def scenarioPopulation (label : String) (coordinates : List α) : Population α :=
  { Label := label, Coordinates := coordinates, Period := "scenario" }

/-- The weight vector of length `n` with `a` at every index other than `k` and
`1 - (n - 1) * a` at index `k`: the weights through which the descent passes
when the catalog is made of unit vectors and the target is the `k`-th. -/
def peakedWeights (n k : Nat) (a : α) : List α :=
  (List.range n).map (fun i => if i = k then 1 - ((n : α) - 1) * a else a)

/-- A catalog whose `i`-th population has the unit vector `e_(i+1)` (a one at
position `i`, zero elsewhere) as coordinates. -/
def UnitCatalog (populations : List (Population α)) : Prop :=
  ∀ i pop, populations[i]? = some pop → pop.Coordinates = unitVector i

/-- The inputs that pass the three checks at the top of
`solveAncestryProportions`. -/
def ValidInput (target : List α) (populations : List (Population α)) : Prop :=
  target.length = 25 ∧ populations ≠ [] ∧ ∀ pop ∈ populations, pop.Coordinates.length = 25

/-- A weight vector on the probability simplex. -/
def OnSimplex (weights : List α) : Prop :=
  (∀ w ∈ weights, 0 ≤ w) ∧ weights.sum = 1

/-- The squared Euclidean distance between the weighted mixture and the
target, as a function of the weights: the value `sumSquares` that
`euclideanDistance(weightedAverage(populations, weights), target)` accumulates
before it takes the square root. -/
def squaredError (target : List α) (populations : List (Population α)) (weights : List α) :
    Option α :=
  (weightedAverage populations weights).bind (fun weighted => sumSquaredDiffs weighted target)

/-! ## Loader (`parser.go`)

The file is what `bufio.Scanner` delivers for it: the lines in order, and
whether the scanner stopped on an error.  The library functions of `strings`
are modelled on lists of characters; `strconv.ParseFloat` is a parameter
`parseFloat`, which returns `none` where the library returns an error. -/

/-- An opened file as the scanner delivers it: the successive values of
`scanner.Text()`, and whether `scanner.Err()` is non-nil after the loop. -/
structure ScannedFile where
  lines : List String
  readFailed : Bool
  deriving DecidableEq, Repr

/-- The errors `parseG25File` returns, with the numbers their texts carry. -/
inductive ParseError where
  | openFailed
  | invalidFormat (line : Nat)
  | coordinateCount (line : Nat) (got : Nat)
  | invalidFloat (line : Nat) (coordinate : Nat) (field : String)
  | readFailed
  | noPopulations
  deriving DecidableEq, Repr

/-- The line number that the text of an error carries, if it carries one. -/
def ParseError.lineNumber : ParseError → Option Nat
  | .invalidFormat line => some line
  | .coordinateCount line _ => some line
  | .invalidFloat line _ _ => some line
  | _ => none

/-- White space in the sense of `unicode.IsSpace`, which `strings.TrimSpace`
uses: tab to carriage return, space, U+0085, U+00A0 and the space separators
of Unicode. -/
def isSpace (c : Char) : Bool :=
  decide ((9 ≤ c.toNat ∧ c.toNat ≤ 13) ∨ c.toNat = 32 ∨ c.toNat = 133 ∨ c.toNat = 160 ∨
    c.toNat = 5760 ∨ (8192 ≤ c.toNat ∧ c.toNat ≤ 8202) ∨ c.toNat = 8232 ∨
    c.toNat = 8233 ∨ c.toNat = 8239 ∨ c.toNat = 8287 ∨ c.toNat = 12288)

/-- Model of `strings.TrimSpace`: leading and trailing white space removed. -/
def trimSpace (s : List Char) : List Char :=
  ((s.dropWhile isSpace).reverse.dropWhile isSpace).reverse

/-- Model of `strings.SplitN(s, ",", 2)` when it returns two parts: the text
before the first comma and the text after it; `none` when `s` has no comma
(the library then returns the single part `s`). -/
def splitFirstComma : List Char → Option (List Char × List Char)
  | [] => none
  | c :: cs =>
    if c = ',' then some ([], cs)
    else
      match splitFirstComma cs with
      | none => none
      | some (before, after) => some (c :: before, after)

/-- Model of `strings.Split(s, ",")`: the fields between the commas, one more
than there are commas. -/
def splitComma : List Char → List (List Char)
  | [] => [[]]
  | c :: cs =>
    if c = ',' then [] :: splitComma cs
    else
      match splitComma cs with
      | [] => [[c]]
      | field :: fields => (c :: field) :: fields

/-- The loop that parses the coordinate fields of line `lineNum`, from field
index `i` on: the first field that `parseFloat` rejects, after trimming, ends
it with an error carrying the line number, the 1-based index and the field.
The fields are the 25 entries of `coordFields`, so the loop over `i < 25`
visits each of them once. -/
def parseCoordinates (parseFloat : String → Option α) (lineNum : Nat) :
    Nat → List (List Char) → Except ParseError (List α)
  | _, [] => .ok []
  | i, field :: rest =>
    match parseFloat (String.mk (trimSpace field)) with
    | none => .error (.invalidFloat lineNum (i + 1) (String.mk field))
    | some value =>
      match parseCoordinates parseFloat lineNum (i + 1) rest with
      | .error err => .error err
      | .ok values => .ok (value :: values)

/-- The body of the scanning loop of `parseG25File` for one line: `none` for a
line that is skipped, a population for a line that parses, an error
otherwise. -/
def parseLine (parseFloat : String → Option α) (period : String) (lineNum : Nat)
    (text : String) : Except ParseError (Option (Population α)) :=
  let line := trimSpace text.data
  if line = [] ∨ line.head? = some '#' then .ok none
  else
    match splitFirstComma line with
    | none => .error (.invalidFormat lineNum)
    | some (label, coordsStr) =>
      let coordFields := splitComma coordsStr
      if coordFields.length ≠ 25 then
        .error (.coordinateCount lineNum coordFields.length)
      else
        match parseCoordinates parseFloat lineNum 0 coordFields with
        | .error err => .error err
        | .ok coordinates =>
          .ok (some { Label := String.mk label, Coordinates := coordinates,
                      Period := period })

/-- The scanning loop of `parseG25File`: `lineNum` lines have been read and
`populations` collected so far. -/
def parseLines (parseFloat : String → Option α) (period : String) :
    Nat → List String → List (Population α) → Except ParseError (List (Population α))
  | _, [], populations => .ok populations
  | lineNum, text :: rest, populations =>
    match parseLine parseFloat period (lineNum + 1) text with
    | .error err => .error err
    | .ok none => parseLines parseFloat period (lineNum + 1) rest populations
    | .ok (some pop) =>
      parseLines parseFloat period (lineNum + 1) rest (populations ++ [pop])

/-- The function `parseG25File` of `parser.go`.  The file is `none` when
`os.Open` fails; `period` is the value of `extractPeriodFromPath(filePath)`. -/
def parseG25File (parseFloat : String → Option α) (period : String)
    (file : Option ScannedFile) : Except ParseError (List (Population α)) :=
  match file with
  | none => .error .openFailed
  | some scanned =>
    match parseLines parseFloat period 0 scanned.lines [] with
    | .error err => .error err
    | .ok populations =>
      if scanned.readFailed then .error .readFailed
      else if populations.length = 0 then .error .noPopulations
      else .ok populations

/-- A data line: a line that, once trimmed, is not empty and does not start
with `#`. -/
def isDataLine (text : String) : Bool :=
  decide (trimSpace text.data ≠ [] ∧ (trimSpace text.data).head? ≠ some '#')

/-- A data line of the form `label,c1,...,c25`: split at its commas it has 26
parts, and each of the 25 parts after the label is, once trimmed, a number
for `parseFloat`. -/
def WellFormedLine (parseFloat : String → Option α) (text : String) : Prop :=
  (splitComma (trimSpace text.data)).length = 26 ∧
    ∀ field ∈ (splitComma (trimSpace text.data)).tail,
      (parseFloat (String.mk (trimSpace field))).isSome = true

/-- The population that a well-formed data line stands for: the label is the
part before the first comma, the coordinates are the values of the other
parts in order, and the period is that of the file. -/
def LineYields (parseFloat : String → Option α) (period : String) (pop : Population α)
    (text : String) : Prop :=
  some pop.Label = ((splitComma (trimSpace text.data)).head?).map String.mk ∧
    pop.Coordinates.map some =
      (splitComma (trimSpace text.data)).tail.map
        (fun field => parseFloat (String.mk (trimSpace field))) ∧
    pop.Period = period

/-- The value of a string of decimal digits, `none` if another character
occurs. -/
def digitsValue : List Char → Nat → Option Nat
  | [], acc => some acc
  | c :: cs, acc =>
    if 48 ≤ c.toNat ∧ c.toNat ≤ 57 then digitsValue cs (acc * 10 + (c.toNat - 48))
    else none

/-- A stand-in for `strconv.ParseFloat` on the examples: it accepts the
non-empty strings of decimal digits, which the library accepts with the same
value, and nothing else. -/
def parseDigits (s : String) : Option α :=
  match s.data with
  | [] => none
  | c :: cs => (digitsValue (c :: cs) 0).map (fun n => (n : α))

/-- A line with the label `Pop_A` and the coordinates 1 to 25, with white
space around it. -/
def sampleLine : String :=
  "  Pop_A,1,2,3,4,5,6,7,8,9,10,11,12,13,14,15,16,17,18,19,20,21,22,23,24,25 "

/-- The 25-dimensional vector with `c` at position `k` and zero elsewhere. -/
def scaledUnitVector (k : Nat) (c : α) : List α :=
  (List.range 25).map (fun i => if i = k then c else 0)

end Defs

/-! ## Lemmas -/

section Lemmas

variable {α : Type} [LinearOrderedField α]

theorem mapM_eq_some_map {β γ : Type} (f : β → Option γ) (g : β → γ) (l : List β)
    (h : ∀ x ∈ l, f x = some (g x)) : l.mapM f = some (l.map g) := by
  induction l with
  | nil => rfl
  | cons x xs ih =>
    have hx : f x = some (g x) := h x (List.mem_cons_self _ _)
    have hxs : xs.mapM f = some (xs.map g) :=
      ih (fun y hy => h y (List.mem_cons_of_mem _ hy))
    rw [List.mapM_cons, hx, hxs]
    rfl

theorem foldlM_add_eq_some {β : Type} (body : α → β → Option α) (g : β → α) (l : List β)
    (h : ∀ acc, ∀ x ∈ l, body acc x = some (acc + g x)) (a : α) :
    l.foldlM body a = some (a + (l.map g).sum) := by
  induction l generalizing a with
  | nil => simp
  | cons x xs ih =>
    have hx : body a x = some (a + g x) := h a x (List.mem_cons_self _ _)
    have hxs := ih (fun acc y hy => h acc y (List.mem_cons_of_mem _ hy)) (a + g x)
    simp [List.foldlM_cons, hx, hxs, add_assoc]

theorem foldl_add_eq_sum (l : List α) (a : α) :
    l.foldl (fun sum w => sum + w) a = a + l.sum := by
  induction l generalizing a with
  | nil => simp
  | cons x xs ih => simp [ih, add_assoc]

theorem getElem?_eq_some_getD {β : Type} (l : List β) (i : Nat) (d : β) (h : i < l.length) :
    l[i]? = some (l.getD i d) := by
  simp [List.getD, List.getElem?_eq_getElem h]

theorem coordinates_getElem? (populations : List (Population α)) (i d : Nat)
    (hc : ∀ pop ∈ populations, pop.Coordinates.length = 25) (hi : i < populations.length)
    (hd : d < 25) :
    (populations.getD i default).Coordinates[d]? = some (coordAt populations i d) := by
  have hmem : populations.getD i default ∈ populations := by
    rw [List.getD_eq_getElem _ _ hi]
    exact List.getElem_mem _
  have hlen := hc _ hmem
  exact getElem?_eq_some_getD _ _ _ (by omega)

theorem weightedAverageAt_eq (populations : List (Population α)) (weights : List α)
    (d : Nat) (hw : weights.length = populations.length)
    (hc : ∀ pop ∈ populations, pop.Coordinates.length = 25) (hd : d < 25) :
    weightedAverageAt populations weights d = some (mixtureAt populations weights d) := by
  unfold weightedAverageAt mixtureAt
  rw [foldlM_add_eq_some _ (fun i => weights.getD i 0 * coordAt populations i d)]
  · simp
  · intro acc i hi
    have hi' : i < populations.length := List.mem_range.mp hi
    rw [getElem?_eq_some_getD populations i default hi',
      getElem?_eq_some_getD weights i 0 (by omega)]
    simp only [Option.bind_eq_bind, Option.some_bind,
      coordinates_getElem? populations i d hc hi' hd, Option.pure_def]

theorem weightedSumAt_eq (populations : List (Population α)) (weights : List α)
    (d : Nat) (hw : weights.length = populations.length)
    (hc : ∀ pop ∈ populations, pop.Coordinates.length = 25) (hd : d < 25) :
    weightedSumAt populations weights d = some (mixtureAt populations weights d) := by
  unfold weightedSumAt mixtureAt
  rw [foldlM_add_eq_some _ (fun i => weights.getD i 0 * coordAt populations i d), hw]
  · simp
  · intro acc i hi
    have hi' : i < populations.length := hw ▸ List.mem_range.mp hi
    rw [getElem?_eq_some_getD populations i default hi',
      getElem?_eq_some_getD weights i 0 (by omega)]
    simp only [Option.bind_eq_bind, Option.some_bind,
      coordinates_getElem? populations i d hc hi' hd, Option.pure_def]

theorem weightedAverage_eq (populations : List (Population α)) (weights : List α)
    (hw : weights.length = populations.length)
    (hc : ∀ pop ∈ populations, pop.Coordinates.length = 25) :
    weightedAverage populations weights = some (mixture populations weights) := by
  unfold weightedAverage mixture
  exact mapM_eq_some_map _ _ _
    (fun d hd => weightedAverageAt_eq populations weights d hw hc (List.mem_range.mp hd))

theorem length_mixture (populations : List (Population α)) (weights : List α) :
    (mixture populations weights).length = 25 := by
  simp [mixture]

theorem euclideanDistance_eq (sqrt : α → α) (v1 v2 : List α) (h : v1.length = v2.length) :
    euclideanDistance sqrt v1 v2 = some (distance sqrt v1 v2) := by
  unfold euclideanDistance sumSquaredDiffs distance
  rw [if_neg (by simpa using h),
    foldlM_add_eq_some _ (fun i => (v1.getD i 0 - v2.getD i 0) * (v1.getD i 0 - v2.getD i 0))]
  · simp
  · intro acc i hi
    have hi' : i < v1.length := List.mem_range.mp hi
    rw [getElem?_eq_some_getD v1 i 0 hi', getElem?_eq_some_getD v2 i 0 (by omega)]
    simp

theorem gradientAt_eq (target : List α) (populations : List (Population α))
    (weights : List α) (i : Nat) (ht : target.length = 25)
    (hw : weights.length = populations.length)
    (hc : ∀ pop ∈ populations, pop.Coordinates.length = 25) (hi : i < populations.length) :
    gradientAt target populations weights i = some (gradAt target populations weights i) := by
  unfold gradientAt gradAt
  rw [foldlM_add_eq_some _ (fun d => 2 * (mixtureAt populations weights d - target.getD d 0) *
      coordAt populations i d)]
  · simp
  · intro acc d hd
    have hd' : d < 25 := List.mem_range.mp hd
    rw [weightedSumAt_eq populations weights d hw hc hd',
      getElem?_eq_some_getD target d 0 (by omega),
      getElem?_eq_some_getD populations i default hi]
    simp only [Option.bind_eq_bind, Option.some_bind,
      coordinates_getElem? populations i d hc hi hd', Option.pure_def]

theorem computeGradients_eq (target : List α) (populations : List (Population α))
    (weights : List α) (ht : target.length = 25)
    (hw : weights.length = populations.length)
    (hc : ∀ pop ∈ populations, pop.Coordinates.length = 25) :
    computeGradients target populations weights =
      some ((List.range populations.length).map (gradAt target populations weights)) := by
  unfold computeGradients
  exact mapM_eq_some_map _ _ _
    (fun i hi => gradientAt_eq target populations weights i ht hw hc (List.mem_range.mp hi))

theorem gradientStep_eq (target : List α) (populations : List (Population α))
    (weights : List α) (hw : weights.length = populations.length) :
    gradientStep weights
        ((List.range populations.length).map (gradAt target populations weights)) =
      some (steppedWeights target populations weights) := by
  unfold gradientStep steppedWeights
  apply mapM_eq_some_map
  intro i hi
  have hi' : i < weights.length := List.mem_range.mp hi
  rw [getElem?_eq_some_getD weights i 0 hi']
  simp [List.getElem?_map, List.getElem?_range (show i < populations.length by omega)]

theorem length_steppedWeights (target : List α) (populations : List (Population α))
    (weights : List α) :
    (steppedWeights target populations weights).length = weights.length := by
  simp [steppedWeights]

theorem length_projectToSimplex (weights : List α) :
    (projectToSimplex weights).length = weights.length := by
  unfold projectToSimplex
  dsimp only
  split <;> simp

theorem length_updateWeights (target : List α) (populations : List (Population α))
    (weights : List α) :
    (updateWeights target populations weights).length = weights.length := by
  simp [updateWeights, length_projectToSimplex, length_steppedWeights]

theorem solveLoop_eq (sqrt : α → α) (target : List α) (populations : List (Population α))
    (ht : target.length = 25) (hc : ∀ pop ∈ populations, pop.Coordinates.length = 25)
    (remaining : Nat) (prevError : Option α) (weights : List α)
    (hw : weights.length = populations.length) :
    solveLoop sqrt target populations remaining prevError weights =
      some (descend sqrt target populations remaining prevError weights) := by
  induction remaining generalizing prevError weights with
  | zero => rfl
  | succ k ih =>
    rw [solveLoop, descend, weightedAverage_eq populations weights hw hc]
    simp only [Option.bind_eq_bind, Option.some_bind]
    rw [euclideanDistance_eq sqrt target _ (by rw [ht, length_mixture])]
    simp only [Option.some_bind]
    by_cases hconv : converged prevError (distance sqrt target (mixture populations weights))
    · simp [hconv]
    · simp only [hconv, Bool.false_eq_true, if_false]
      rw [computeGradients_eq target populations weights ht hw hc]
      simp only [Option.some_bind]
      rw [gradientStep_eq target populations weights hw]
      simp only [Option.some_bind]
      exact ih _ _ (by rw [length_projectToSimplex, length_steppedWeights, hw])

theorem map_getD_range {β : Type} (l : List β) (d : β) :
    (List.range l.length).map (fun i => l.getD i d) = l := by
  apply List.ext_getElem
  · simp
  · intro i h1 h2
    simp [List.getElem?_eq_getElem h2]

theorem buildResults_eq (populations : List (Population α)) (weights : List α)
    (hw : weights.length = populations.length) :
    buildResults populations weights = some (resultsOf populations weights) := by
  unfold buildResults resultsOf
  apply mapM_eq_some_map
  intro i hi
  have hi' : i < populations.length := List.mem_range.mp hi
  rw [getElem?_eq_some_getD populations i default hi',
    getElem?_eq_some_getD weights i 0 (by omega)]
  rfl

theorem map_proportion_resultsOf (populations : List (Population α)) (weights : List α)
    (hw : weights.length = populations.length) :
    (resultsOf populations weights).map (fun r => r.Proportion) = weights := by
  unfold resultsOf
  rw [List.map_map, ← hw]
  exact map_getD_range weights 0

theorem map_population_resultsOf (populations : List (Population α)) (weights : List α) :
    (resultsOf populations weights).map (fun r => r.Population) = populations := by
  unfold resultsOf
  rw [List.map_map]
  exact map_getD_range populations default

omit [LinearOrderedField α] in
theorem firstBadPopulation_eq_none (populations : List (Population α)) (i : Nat)
    (hc : ∀ pop ∈ populations, pop.Coordinates.length = 25) :
    firstBadPopulation populations i = none := by
  induction populations generalizing i with
  | nil => rfl
  | cons pop rest ih =>
    rw [firstBadPopulation, if_neg (by simpa using hc pop (List.mem_cons_self _ _))]
    exact ih _ (fun q hq => hc q (List.mem_cons_of_mem _ hq))

theorem length_descend (sqrt : α → α) (target : List α) (populations : List (Population α))
    (remaining : Nat) (prevError : Option α) (weights : List α) :
    (descend sqrt target populations remaining prevError weights).length = weights.length := by
  induction remaining generalizing prevError weights with
  | zero => rfl
  | succ k ih =>
    rw [descend]
    split
    · rfl
    · rw [ih, length_updateWeights]

theorem length_initialWeights (n : Nat) : (initialWeights n : List α).length = n := by
  simp [initialWeights]

theorem finalWeights_eq (sqrt : α → α) (target : List α) (populations : List (Population α))
    (ht : target.length = 25) (hc : ∀ pop ∈ populations, pop.Coordinates.length = 25) :
    finalWeights sqrt target populations =
      some (descend sqrt target populations maxIterations none
        (initialWeights populations.length)) :=
  solveLoop_eq sqrt target populations ht hc _ _ _ (length_initialWeights _)

theorem solveAncestryProportions_eq_ok (sqrt : α → α) (target : List α)
    (populations : List (Population α)) (h : ValidInput target populations) :
    solveAncestryProportions sqrt target populations =
      .ok (resultsOf populations (descend sqrt target populations maxIterations none
        (initialWeights populations.length))) := by
  obtain ⟨ht, hne, hc⟩ := h
  have hlen : populations.length ≠ 0 := by
    simpa [List.length_eq_zero] using hne
  have hv : validateInputs target populations = none := by
    unfold validateInputs
    rw [if_neg (by simpa using ht), if_neg hlen, firstBadPopulation_eq_none populations 0 hc]
  unfold solveAncestryProportions
  simp only [hv, finalWeights_eq sqrt target populations ht hc]
  rw [buildResults_eq _ _ (by rw [length_descend, length_initialWeights])]

/-! ### The projector -/

theorem clip_nonneg (weights : List α) :
    ∀ w ∈ weights.map (fun w => if w < 0 then 0 else w), (0 : α) ≤ w := by
  intro w hw
  obtain ⟨x, _, rfl⟩ := List.mem_map.mp hw
  split
  · exact le_refl 0
  · exact le_of_not_lt (by assumption)

theorem sum_map_div (l : List α) (s : α) : (l.map (fun w => w / s)).sum = l.sum / s := by
  induction l with
  | nil => simp
  | cons x xs ih => simp [ih, add_div]

theorem sum_map_const_inv (β : Type) (l : List β) (n : Nat) (hn : l.length = n) (h0 : n ≠ 0) :
    (l.map (fun _ => 1 / (n : α))).sum = 1 := by
  have hn0 : (n : α) ≠ 0 := Nat.cast_ne_zero.mpr h0
  rw [List.map_const', List.sum_replicate, hn, nsmul_eq_mul]
  field_simp

theorem degenerateSum_pos : (0 : α) < degenerateSum := by
  unfold degenerateSum
  positivity

theorem projectToSimplex_onSimplex (weights : List α) (hne : weights ≠ []) :
    OnSimplex (projectToSimplex weights) := by
  have hlen : weights.length ≠ 0 := by simpa [List.length_eq_zero] using hne
  unfold projectToSimplex OnSimplex
  dsimp only
  rw [foldl_add_eq_sum, zero_add]
  split
  · refine ⟨?_, sum_map_const_inv _ _ _ (by simp) hlen⟩
    intro w hw
    obtain ⟨x, _, rfl⟩ := List.mem_map.mp hw
    positivity
  · rename_i hs
    have hpos : 0 < (weights.map (fun w => if w < 0 then 0 else w)).sum :=
      lt_of_lt_of_le degenerateSum_pos (le_of_not_lt hs)
    refine ⟨?_, ?_⟩
    · intro w hw
      obtain ⟨x, hx, rfl⟩ := List.mem_map.mp hw
      exact div_nonneg (clip_nonneg weights x hx) hpos.le
    · rw [sum_map_div, div_self hpos.ne']

theorem initialWeights_onSimplex (n : Nat) (h0 : n ≠ 0) :
    OnSimplex (initialWeights n : List α) := by
  unfold initialWeights OnSimplex
  have hn0 : (n : α) ≠ 0 := Nat.cast_ne_zero.mpr h0
  refine ⟨?_, ?_⟩
  · intro w hw
    rw [List.eq_of_mem_replicate hw]
    positivity
  · rw [List.sum_replicate, nsmul_eq_mul]
    field_simp

theorem descend_onSimplex (sqrt : α → α) (target : List α)
    (populations : List (Population α)) (remaining : Nat) (prevError : Option α)
    (weights : List α) (hne : weights ≠ []) (hs : OnSimplex weights) :
    OnSimplex (descend sqrt target populations remaining prevError weights) := by
  induction remaining generalizing prevError weights with
  | zero => exact hs
  | succ k ih =>
    rw [descend]
    split
    · exact hs
    · have hne' : steppedWeights target populations weights ≠ [] := by
        intro h
        have := length_steppedWeights target populations weights
        rw [h] at this
        exact hne (List.length_eq_zero.mp this.symm)
      have hne'' : updateWeights target populations weights ≠ [] := by
        intro h
        have := length_updateWeights target populations weights
        rw [h] at this
        exact hne (List.length_eq_zero.mp this.symm)
      exact ih _ _ hne'' (projectToSimplex_onSimplex _ hne')

theorem le_one_of_onSimplex (weights : List α) (hs : OnSimplex weights) :
    ∀ w ∈ weights, w ≤ 1 := by
  intro w hw
  rw [← hs.2]
  exact List.single_le_sum hs.1 w hw

omit [LinearOrderedField α] in
theorem firstBadPopulation_eq_some (populations : List (Population α)) (start : Nat)
    (h : ∃ pop ∈ populations, pop.Coordinates.length ≠ 25) :
    ∃ i pop, populations[i]? = some pop ∧ pop.Coordinates.length ≠ 25 ∧
      (∀ j < i, ∀ q, populations[j]? = some q → q.Coordinates.length = 25) ∧
      firstBadPopulation populations start = some (start + i, pop) := by
  induction populations generalizing start with
  | nil =>
    obtain ⟨pop, hmem, _⟩ := h
    exact absurd hmem (List.not_mem_nil _)
  | cons p rest ih =>
    by_cases hp : p.Coordinates.length = 25
    · have hrest : ∃ pop ∈ rest, pop.Coordinates.length ≠ 25 := by
        obtain ⟨pop, hmem, hbad⟩ := h
        rcases List.mem_cons.mp hmem with heq | hmem'
        · exact absurd (heq ▸ hp) hbad
        · exact ⟨pop, hmem', hbad⟩
      obtain ⟨i, pop, hget, hbad, hbefore, hfirst⟩ := ih (start + 1) hrest
      refine ⟨i + 1, pop, by simpa using hget, hbad, ?_, ?_⟩
      · intro j hj q hq
        cases j with
        | zero =>
          have : p = q := by simpa using hq
          exact this ▸ hp
        | succ j => exact hbefore j (by omega) q (by simpa using hq)
      · rw [firstBadPopulation, if_neg (by simpa using hp), hfirst]
        congr 2
        omega
    · refine ⟨0, p, by simp, hp, ?_, ?_⟩
      · intro j hj
        omega
      · rw [firstBadPopulation, if_pos hp]
        rfl

theorem projectToSimplex_eq_spec (weights : List α) :
    projectToSimplex weights = projectToSimplexSpec weights := by
  have hclip : ∀ w : α, (if w < 0 then 0 else w) = max w 0 := by
    intro w
    split
    · rw [max_eq_right (le_of_lt (by assumption))]
    · rw [max_eq_left (le_of_not_lt (by assumption))]
  unfold projectToSimplex projectToSimplexSpec degenerateSum
  dsimp only
  rw [foldl_add_eq_sum, zero_add]
  simp only [hclip]
  split
  · rw [List.eq_replicate_iff]
    refine ⟨by simp, ?_⟩
    intro b hb
    obtain ⟨x, _, rfl⟩ := List.mem_map.mp hb
    rfl
  · rw [List.map_map]
    rfl

theorem getElem?_resultsOf (populations : List (Population α)) (weights : List α)
    (i : Nat) (hi : i < populations.length) :
    (resultsOf populations weights)[i]? =
      some { Population := populations.getD i default, Proportion := weights.getD i 0 } := by
  unfold resultsOf
  rw [List.getElem?_map, List.getElem?_range hi]
  rfl

/-! ### Sorting -/

theorem insertSorted_perm {β : Type} (less : β → β → Bool) (x : β) (l : List β) :
    (insertSorted less x l).Perm (x :: l) := by
  induction l with
  | nil => exact List.Perm.refl _
  | cons y ys ih =>
    rw [insertSorted]
    split
    · exact (List.Perm.cons y ih).trans (List.Perm.swap x y ys)
    · exact List.Perm.refl _

theorem sortSlice_perm {β : Type} (less : β → β → Bool) (l : List β) :
    (sortSlice less l).Perm l := by
  induction l with
  | nil => exact List.Perm.refl _
  | cons x xs ih =>
    rw [sortSlice]
    exact (insertSorted_perm less x _).trans (List.Perm.cons x ih)

theorem insertSorted_descending (x : AncestryResult α) (l : List (AncestryResult α))
    (hl : l.Pairwise (fun a b => b.Proportion ≤ a.Proportion)) :
    (insertSorted (fun a b => decide (a.Proportion > b.Proportion)) x l).Pairwise
      (fun a b => b.Proportion ≤ a.Proportion) := by
  induction l with
  | nil => simp [insertSorted]
  | cons y ys ih =>
    rw [insertSorted]
    obtain ⟨hy, hys⟩ := List.pairwise_cons.mp hl
    split
    · rename_i hlt
      have hlt' : x.Proportion < y.Proportion := by simpa using hlt
      refine List.pairwise_cons.mpr ⟨?_, ih hys⟩
      intro z hz
      rcases List.mem_cons.mp ((insertSorted_perm _ x ys).mem_iff.mp hz) with rfl | hz'
      · exact hlt'.le
      · exact hy z hz'
    · rename_i hge
      have hge' : y.Proportion ≤ x.Proportion := by simpa using hge
      refine List.pairwise_cons.mpr ⟨?_, hl⟩
      intro z hz
      rcases List.mem_cons.mp hz with rfl | hz'
      · exact hge'
      · exact (hy z hz').trans hge'

/-! ### Fixed points of the loop body -/

theorem getD_map_range {β : Type} (f : Nat → β) (n d : Nat) (x : β) (h : d < n) :
    ((List.range n).map f).getD d x = f d := by
  simp [List.getD, List.getElem?_map, List.getElem?_range h]

theorem projectToSimplex_of_onSimplex (weights : List α) (hs : OnSimplex weights) :
    projectToSimplex weights = weights := by
  have hclip : weights.map (fun w => if w < 0 then 0 else w) = weights := by
    conv_rhs => rw [← List.map_id weights]
    apply List.map_congr_left
    intro w hw
    rw [if_neg (not_lt.mpr (hs.1 w hw))]
    rfl
  unfold projectToSimplex
  dsimp only
  rw [hclip, foldl_add_eq_sum, zero_add, hs.2, if_neg]
  · simp
  · unfold degenerateSum
    norm_num

theorem gradAt_eq_zero (target : List α) (populations : List (Population α))
    (weights : List α) (i : Nat)
    (hm : ∀ d, d < 25 → mixtureAt populations weights d = target.getD d 0) :
    gradAt target populations weights i = 0 := by
  unfold gradAt
  apply List.sum_eq_zero
  intro x hx
  obtain ⟨d, hd, rfl⟩ := List.mem_map.mp hx
  rw [hm d (List.mem_range.mp hd)]
  ring

theorem updateWeights_eq_self (target : List α) (populations : List (Population α))
    (weights : List α) (hs : OnSimplex weights)
    (hm : ∀ d, d < 25 → mixtureAt populations weights d = target.getD d 0) :
    updateWeights target populations weights = weights := by
  have hstep : steppedWeights target populations weights = weights := by
    unfold steppedWeights
    conv_rhs => rw [← map_getD_range weights 0]
    apply List.map_congr_left
    intro i _
    rw [gradAt_eq_zero target populations weights i hm]
    ring
  rw [updateWeights, hstep, projectToSimplex_of_onSimplex weights hs]

theorem converged_self (e : α) : converged (some e) e = true := by
  unfold converged convergenceThreshold
  simp

theorem descend_of_fixed (sqrt : α → α) (target : List α)
    (populations : List (Population α)) (weights : List α)
    (hfix : updateWeights target populations weights = weights) (k : Nat) :
    descend sqrt target populations (k + 2) none weights = weights := by
  rw [descend]
  simp only [converged, Bool.false_eq_true, if_false]
  rw [hfix, descend, converged_self]
  simp

theorem solve_of_uniform_mixture (sqrt : α → α) (target : List α)
    (populations : List (Population α)) (h : ValidInput target populations)
    (hm : ∀ d, d < 25 →
      mixtureAt populations (initialWeights populations.length) d = target.getD d 0) :
    solveAncestryProportions sqrt target populations =
      .ok (resultsOf populations (initialWeights populations.length)) := by
  have hn : populations.length ≠ 0 := by simpa [List.length_eq_zero] using h.2.1
  rw [solveAncestryProportions_eq_ok sqrt target populations h]
  have hfix := updateWeights_eq_self target populations _
    (initialWeights_onSimplex populations.length hn) hm
  have : maxIterations = 9998 + 2 := rfl
  rw [this, descend_of_fixed sqrt target populations _ hfix]

theorem getD_unitVector (k d : Nat) (hd : d < 25) :
    (unitVector k : List α).getD d 0 = if d = k then 1 else 0 :=
  getD_map_range _ 25 d 0 hd

theorem getD_halfHalfTarget (d : Nat) (hd : d < 25) :
    (halfHalfTarget : List α).getD d 0 = if d < 2 then 1 / 2 else 0 :=
  getD_map_range _ 25 d 0 hd

/-! ### Reordering the catalog -/

theorem filterMap_eq_map {β γ : Type} (f : β → Option γ) (g : β → γ) (l : List β)
    (h : ∀ x ∈ l, f x = some (g x)) : l.filterMap f = l.map g := by
  induction l with
  | nil => rfl
  | cons x xs ih =>
    rw [List.filterMap_cons, h x (List.mem_cons_self _ _),
      ih (fun y hy => h y (List.mem_cons_of_mem _ hy))]
    rfl

theorem permute_eq_map {β : Type} (idx : List Nat) (xs : List β) (d : β)
    (h : ∀ i ∈ idx, i < xs.length) : permute idx xs = idx.map (fun i => xs.getD i d) :=
  filterMap_eq_map _ _ idx (fun i hi => getElem?_eq_some_getD xs i d (h i hi))

theorem lt_of_mem_of_perm_range (idx : List Nat) (n : Nat)
    (hp : idx.Perm (List.range n)) : ∀ i ∈ idx, i < n :=
  fun _ hi => List.mem_range.mp (hp.mem_iff.mp hi)

theorem permute_perm {β : Type} [Inhabited β] (idx : List Nat) (xs : List β)
    (hp : idx.Perm (List.range xs.length)) : (permute idx xs).Perm xs := by
  rw [permute_eq_map idx xs default (lt_of_mem_of_perm_range idx _ hp)]
  have h := hp.map (fun i => xs.getD i default)
  rwa [map_getD_range] at h

theorem reindex_map {β : Type} (idx : List Nat) (G : Nat → β) :
    (List.range idx.length).map (fun k => G (idx.getD k 0)) = idx.map G := by
  conv_rhs => rw [← map_getD_range idx 0]
  rw [List.map_map]
  rfl

theorem getD_map_of_lt {β : Type} (idx : List Nat) (g : Nat → β) (k : Nat) (d : β)
    (hk : k < idx.length) : (idx.map g).getD k d = g (idx.getD k 0) := by
  simp [List.getD, List.getElem?_map, List.getElem?_eq_getElem hk]

theorem mixtureAt_reorder (populations : List (Population α)) (weights : List α)
    (idx : List Nat) (hp : idx.Perm (List.range populations.length)) (d : Nat) :
    mixtureAt (idx.map (fun i => populations.getD i default))
        (idx.map (fun i => weights.getD i 0)) d =
      mixtureAt populations weights d := by
  unfold mixtureAt
  rw [List.length_map]
  have hcongr : (List.range idx.length).map (fun k =>
        (idx.map (fun i => weights.getD i 0)).getD k 0 *
          coordAt (idx.map (fun i => populations.getD i default)) k d) =
      (List.range idx.length).map (fun k =>
        (fun i => weights.getD i 0 * coordAt populations i d) (idx.getD k 0)) := by
    apply List.map_congr_left
    intro k hk
    have hk' : k < idx.length := List.mem_range.mp hk
    simp only [coordAt]
    rw [getD_map_of_lt idx _ k 0 hk', getD_map_of_lt idx _ k default hk']
  rw [hcongr, reindex_map idx (fun i => weights.getD i 0 * coordAt populations i d)]
  exact (hp.map _).sum_eq

theorem mixture_reorder (populations : List (Population α)) (weights : List α)
    (idx : List Nat) (hp : idx.Perm (List.range populations.length)) :
    mixture (idx.map (fun i => populations.getD i default))
        (idx.map (fun i => weights.getD i 0)) =
      mixture populations weights := by
  unfold mixture
  apply List.map_congr_left
  intro d _
  exact mixtureAt_reorder populations weights idx hp d

theorem gradAt_reorder (target : List α) (populations : List (Population α))
    (weights : List α) (idx : List Nat) (hp : idx.Perm (List.range populations.length))
    (k : Nat) (hk : k < idx.length) :
    gradAt target (idx.map (fun i => populations.getD i default))
        (idx.map (fun i => weights.getD i 0)) k =
      gradAt target populations weights (idx.getD k 0) := by
  unfold gradAt
  congr 1
  apply List.map_congr_left
  intro d _
  rw [mixtureAt_reorder populations weights idx hp d]
  simp only [coordAt]
  rw [getD_map_of_lt idx _ k default hk]

theorem steppedWeights_reorder (target : List α) (populations : List (Population α))
    (weights : List α) (idx : List Nat) (hp : idx.Perm (List.range populations.length))
    (hw : weights.length = populations.length) :
    steppedWeights target (idx.map (fun i => populations.getD i default))
        (idx.map (fun i => weights.getD i 0)) =
      idx.map (fun i => (steppedWeights target populations weights).getD i 0) := by
  have hlhs : steppedWeights target (idx.map (fun i => populations.getD i default))
        (idx.map (fun i => weights.getD i 0)) =
      (List.range idx.length).map (fun k =>
        (fun i => weights.getD i 0 - learningRate * gradAt target populations weights i)
          (idx.getD k 0)) := by
    unfold steppedWeights
    rw [List.length_map]
    apply List.map_congr_left
    intro k hk
    have hk' : k < idx.length := List.mem_range.mp hk
    rw [getD_map_of_lt idx _ k 0 hk', gradAt_reorder target populations weights idx hp k hk']
  rw [hlhs, reindex_map idx
    (fun i => weights.getD i 0 - learningRate * gradAt target populations weights i)]
  apply List.map_congr_left
  intro i hi
  have hi' : i < weights.length := hw ▸ lt_of_mem_of_perm_range idx _ hp i hi
  unfold steppedWeights
  rw [getD_map_range _ _ i 0 hi']

theorem projectToSimplex_eq_map (weights : List α) :
    projectToSimplex weights =
      weights.map (fun w =>
        if (weights.map (fun w => if w < 0 then 0 else w)).sum < degenerateSum then
          1 / (weights.length : α)
        else (if w < 0 then 0 else w) / (weights.map (fun w => if w < 0 then 0 else w)).sum) := by
  unfold projectToSimplex
  dsimp only
  rw [foldl_add_eq_sum, zero_add]
  split <;> simp [List.map_map, Function.comp_def]

theorem projectToSimplex_reorder (weights : List α) (idx : List Nat)
    (hp : idx.Perm (List.range weights.length)) :
    projectToSimplex (idx.map (fun i => weights.getD i 0)) =
      idx.map (fun i => (projectToSimplex weights).getD i 0) := by
  have hperm : (idx.map (fun i => weights.getD i 0)).Perm weights := by
    have h := hp.map (fun i => weights.getD i 0)
    rwa [map_getD_range] at h
  have hsum : ((idx.map (fun i => weights.getD i 0)).map
        (fun w => if w < 0 then 0 else w)).sum =
      (weights.map (fun w => if w < 0 then 0 else w)).sum := (hperm.map _).sum_eq
  have hlen : (idx.map (fun i => weights.getD i 0)).length = weights.length :=
    hperm.length_eq
  rw [projectToSimplex_eq_map (idx.map (fun i => weights.getD i 0)), hsum, hlen,
    List.map_map]
  apply List.map_congr_left
  intro i hi
  have hi' : i < weights.length := lt_of_mem_of_perm_range idx _ hp i hi
  rw [projectToSimplex_eq_map weights]
  simp [List.getD, List.getElem?_map, List.getElem?_eq_getElem hi']

theorem updateWeights_reorder (target : List α) (populations : List (Population α))
    (weights : List α) (idx : List Nat) (hp : idx.Perm (List.range populations.length))
    (hw : weights.length = populations.length) :
    updateWeights target (idx.map (fun i => populations.getD i default))
        (idx.map (fun i => weights.getD i 0)) =
      idx.map (fun i => (updateWeights target populations weights).getD i 0) := by
  unfold updateWeights
  rw [steppedWeights_reorder target populations weights idx hp hw]
  exact projectToSimplex_reorder _ idx
    (by rw [length_steppedWeights, hw]; exact hp)

theorem descend_reorder (sqrt : α → α) (target : List α)
    (populations : List (Population α)) (idx : List Nat)
    (hp : idx.Perm (List.range populations.length)) (remaining : Nat)
    (prevError : Option α) (weights : List α) (hw : weights.length = populations.length) :
    descend sqrt target (idx.map (fun i => populations.getD i default)) remaining prevError
        (idx.map (fun i => weights.getD i 0)) =
      idx.map (fun i =>
        (descend sqrt target populations remaining prevError weights).getD i 0) := by
  induction remaining generalizing prevError weights with
  | zero => rfl
  | succ r ih =>
    rw [descend, descend, mixture_reorder populations weights idx hp]
    split
    · rfl
    · rw [updateWeights_reorder target populations weights idx hp hw]
      exact ih _ _ (by rw [length_updateWeights, hw])

theorem initialWeights_reorder (idx : List Nat) (n : Nat)
    (hp : idx.Perm (List.range n)) :
    (initialWeights idx.length : List α) =
      idx.map (fun i => (initialWeights n : List α).getD i 0) := by
  have hlen : idx.length = n := by simpa using hp.length_eq
  unfold initialWeights
  rw [hlen, eq_comm, List.eq_replicate_iff]
  refine ⟨by simp [hlen], ?_⟩
  intro b hb
  obtain ⟨i, hi, rfl⟩ := List.mem_map.mp hb
  have hi' : i < n := lt_of_mem_of_perm_range idx n hp i hi
  simp [List.getD, List.getElem?_replicate, hi']

theorem resultsOf_reorder (populations : List (Population α)) (weights : List α)
    (idx : List Nat) (hp : idx.Perm (List.range populations.length)) :
    resultsOf (idx.map (fun i => populations.getD i default))
        (idx.map (fun i => weights.getD i 0)) =
      permute idx (resultsOf populations weights) := by
  have hrhs : permute idx (resultsOf populations weights) =
      idx.map (fun i =>
        ({ Population := populations.getD i default, Proportion := weights.getD i 0 } :
          AncestryResult α)) :=
    filterMap_eq_map _ _ idx (fun i hi => getElem?_resultsOf populations weights i
      (lt_of_mem_of_perm_range idx _ hp i hi))
  rw [hrhs, ← reindex_map idx (fun i =>
    ({ Population := populations.getD i default, Proportion := weights.getD i 0 } :
      AncestryResult α))]
  unfold resultsOf
  rw [List.length_map]
  apply List.map_congr_left
  intro k hk
  have hk' : k < idx.length := List.mem_range.mp hk
  rw [getD_map_of_lt idx _ k default hk', getD_map_of_lt idx _ k 0 hk']

/-! ### Catalogs of unit vectors -/

theorem sum_map_range_eq (f : Nat → α) (m : Nat) :
    ((List.range m).map f).sum = ∑ i in Finset.range m, f i := by
  induction m with
  | zero => simp
  | succ m ih => rw [List.range_succ, List.map_append, List.sum_append, ih,
      Finset.sum_range_succ]; simp

theorem sum_range_indicator (g : Nat → α) (c m : Nat) :
    ((List.range m).map (fun j => g j * (if j = c then 1 else 0))).sum =
      if c < m then g c else 0 := by
  rw [sum_map_range_eq]
  simp [mul_ite, Finset.sum_ite_eq', Finset.mem_range]

theorem sum_range_peak (x y : α) (c m : Nat) (hc : c < m) :
    ((List.range m).map (fun j => if j = c then x else y)).sum = (m : α) * y + (x - y) := by
  have hfun : (fun j : Nat => if j = c then x else y) =
      fun j => y + (x - y) * (if j = c then 1 else 0) := by
    funext j
    split <;> ring
  rw [hfun, sum_map_range_eq, Finset.sum_add_distrib, ← sum_map_range_eq (fun j =>
    (x - y) * (if j = c then 1 else 0)), sum_range_indicator (fun _ => x - y) c m, if_pos hc]
  simp

theorem sum_range_truncate (f : Nat → α) (n m : Nat) (h : n ≤ m) :
    ((List.range m).map (fun d => if d < n then f d else 0)).sum =
      ((List.range n).map f).sum := by
  rw [sum_map_range_eq, sum_map_range_eq, ← Finset.sum_filter]
  congr 1
  ext d
  simp only [Finset.mem_filter, Finset.mem_range]
  omega

theorem length_peakedWeights (n k : Nat) (a : α) : (peakedWeights n k a).length = n := by
  simp [peakedWeights]

theorem getD_peakedWeights (n k : Nat) (a : α) (i : Nat) (hi : i < n) :
    (peakedWeights n k a).getD i 0 = if i = k then 1 - ((n : α) - 1) * a else a :=
  getD_map_range _ n i 0 hi

theorem peakedWeights_onSimplex (n k : Nat) (a : α) (hk : k < n) (ha : 0 ≤ a)
    (hna : (n : α) * a ≤ 1) : OnSimplex (peakedWeights n k a) := by
  refine ⟨?_, ?_⟩
  · intro w hw
    obtain ⟨i, _, rfl⟩ := List.mem_map.mp hw
    split
    · nlinarith
    · exact ha
  · unfold peakedWeights
    rw [sum_range_peak _ _ k n hk]
    ring

theorem initialWeights_eq_peaked (n k : Nat) (hn : n ≠ 0) :
    (initialWeights n : List α) = peakedWeights n k (1 / (n : α)) := by
  have hn0 : (n : α) ≠ 0 := Nat.cast_ne_zero.mpr hn
  unfold initialWeights peakedWeights
  rw [eq_comm, List.eq_replicate_iff]
  refine ⟨by simp, ?_⟩
  intro b hb
  obtain ⟨i, _, rfl⟩ := List.mem_map.mp hb
  split
  · field_simp
  · rfl

theorem coordAt_unit (populations : List (Population α)) (hunit : UnitCatalog populations)
    (i d : Nat) (hi : i < populations.length) (hd : d < 25) :
    coordAt populations i d = if d = i then 1 else 0 := by
  unfold coordAt
  rw [hunit i _ (getElem?_eq_some_getD populations i default hi), getD_unitVector i d hd]

theorem mixtureAt_unit (populations : List (Population α)) (hunit : UnitCatalog populations)
    (weights : List α) (d : Nat) (hd : d < 25) :
    mixtureAt populations weights d =
      if d < populations.length then weights.getD d 0 else 0 := by
  unfold mixtureAt
  have hcongr : (List.range populations.length).map
        (fun i => weights.getD i 0 * coordAt populations i d) =
      (List.range populations.length).map
        (fun i => weights.getD i 0 * (if i = d then 1 else 0)) := by
    apply List.map_congr_left
    intro i hi
    rw [coordAt_unit populations hunit i d (List.mem_range.mp hi) hd]
    simp only [eq_comm]
  rw [hcongr, sum_range_indicator (fun i => weights.getD i 0) d populations.length]

theorem gradAt_unit (target : List α) (populations : List (Population α))
    (hunit : UnitCatalog populations) (h25 : populations.length ≤ 25) (weights : List α)
    (i : Nat) (hi : i < populations.length) :
    gradAt target populations weights i = 2 * (weights.getD i 0 - target.getD i 0) := by
  unfold gradAt
  have hcongr : (List.range 25).map
        (fun d => 2 * (mixtureAt populations weights d - target.getD d 0) *
          coordAt populations i d) =
      (List.range 25).map
        (fun d => 2 * (mixtureAt populations weights d - target.getD d 0) *
          (if d = i then 1 else 0)) := by
    apply List.map_congr_left
    intro d hd
    rw [coordAt_unit populations hunit i d hi (List.mem_range.mp hd)]
  rw [hcongr, sum_range_indicator
    (fun d => 2 * (mixtureAt populations weights d - target.getD d 0)) i 25,
    if_pos (by omega), mixtureAt_unit populations hunit weights i (by omega), if_pos hi]

theorem steppedWeights_unit (populations : List (Population α))
    (hunit : UnitCatalog populations) (h25 : populations.length ≤ 25) (k : Nat) (a : α) :
    steppedWeights (unitVector k) populations (peakedWeights populations.length k a) =
      peakedWeights populations.length k (49 / 50 * a) := by
  unfold steppedWeights
  rw [length_peakedWeights]
  conv_rhs => rw [peakedWeights]
  apply List.map_congr_left
  intro i hi
  have hi' : i < populations.length := List.mem_range.mp hi
  rw [gradAt_unit _ populations hunit h25 _ i hi', getD_peakedWeights _ k a i hi',
    getD_unitVector k i (by omega)]
  unfold learningRate
  split <;> ring

theorem updateWeights_unit (populations : List (Population α))
    (hunit : UnitCatalog populations) (h25 : populations.length ≤ 25) (k : Nat)
    (hk : k < populations.length) (a : α) (ha : 0 ≤ a)
    (hna : (populations.length : α) * a ≤ 1) :
    updateWeights (unitVector k) populations (peakedWeights populations.length k a) =
      peakedWeights populations.length k (49 / 50 * a) := by
  rw [updateWeights, steppedWeights_unit populations hunit h25 k a]
  apply projectToSimplex_of_onSimplex
  apply peakedWeights_onSimplex _ _ _ hk (by positivity)
  have hn : (0 : α) ≤ (populations.length : α) := Nat.cast_nonneg _
  nlinarith [mul_nonneg hn ha]

theorem distance_unit (sqrt : α → α) (populations : List (Population α))
    (hunit : UnitCatalog populations) (h25 : populations.length ≤ 25) (k : Nat)
    (hk : k < populations.length) (a : α) :
    distance sqrt (unitVector k)
        (mixture populations (peakedWeights populations.length k a)) =
      sqrt ((populations.length : α) * ((populations.length : α) - 1) * (a * a)) := by
  unfold distance
  congr 1
  have hlen : (unitVector k : List α).length = 25 := by simp [unitVector]
  rw [hlen]
  have hcongr : (List.range 25).map (fun i =>
        ((unitVector k : List α).getD i 0 -
            (mixture populations (peakedWeights populations.length k a)).getD i 0) *
          ((unitVector k : List α).getD i 0 -
            (mixture populations (peakedWeights populations.length k a)).getD i 0)) =
      (List.range 25).map (fun d => if d < populations.length then
        (fun j => if j = k then
          (((populations.length : α) - 1) * a) * (((populations.length : α) - 1) * a)
          else a * a) d else 0) := by
    apply List.map_congr_left
    intro d hd
    have hd' : d < 25 := List.mem_range.mp hd
    rw [getD_unitVector k d hd']
    unfold mixture
    rw [getD_map_range _ 25 d 0 hd', mixtureAt_unit populations hunit _ d hd']
    by_cases hdn : d < populations.length
    · rw [if_pos hdn, if_pos hdn, getD_peakedWeights _ k a d hdn]
      by_cases hdk : d = k
      · simp only [if_pos hdk]
        ring
      · simp only [if_neg hdk]
        ring
    · have hdk : d ≠ k := by omega
      rw [if_neg hdn, if_neg hdn, if_neg hdk]
      ring
  rw [hcongr, sum_range_truncate _ _ 25 h25, sum_range_peak _ _ k _ hk]
  ring

theorem converged_unit_small (sqrt : α → α) (hsqrt0 : ∀ x, 0 ≤ x → 0 ≤ sqrt x)
    (hsqrt : ∀ x, 0 ≤ x → sqrt x * sqrt x = x) (n x : α) (hn : 1 ≤ n) (hx : 0 ≤ x)
    (hconv : converged (some (sqrt (n * (n - 1) * (x * x))))
      (sqrt (n * (n - 1) * (49 / 50 * x * (49 / 50 * x)))) = true) :
    (n - 1) * (49 / 50 * x) ≤ 1 / 1000 := by
  have hn1 : 0 ≤ n - 1 := by linarith
  have hD : 0 ≤ n * (n - 1) * (x * x) := by positivity
  have hD' : 0 ≤ n * (n - 1) * (49 / 50 * x * (49 / 50 * x)) := by positivity
  have hu0 := hsqrt0 _ hD
  have huu := hsqrt _ hD
  have hv0 := hsqrt0 _ hD'
  have hvv := hsqrt _ hD'
  generalize sqrt (n * (n - 1) * (x * x)) = u at hu0 huu hconv
  generalize sqrt (n * (n - 1) * (49 / 50 * x * (49 / 50 * x))) = v at hv0 hvv hconv
  have hv : v = 49 / 50 * u := by
    apply (mul_self_inj hv0 (by positivity)).mp
    rw [hvv]
    linear_combination (-(2401 / 2500 : α)) * huu
  have hlt : |u - v| < 1 / 1000000 := by
    simpa [converged, convergenceThreshold] using hconv
  rw [hv] at hlt
  have hu : u < 1 / 20000 := by
    have := (abs_lt.mp hlt).2
    linarith
  have hle : (n - 1) * x ≤ u := by
    apply (mul_self_le_mul_self_iff (by positivity) hu0).mpr
    rw [huu]
    nlinarith [mul_nonneg hn1 (mul_self_nonneg x)]
  nlinarith

theorem pow_decay_small : ((49 : α) / 50) ^ 10000 ≤ 1 / 1000 := by
  have h1 : ((49 : α) / 50) ^ 10000 ≤ ((49 : α) / 50) ^ 400 :=
    pow_le_pow_of_le_one (by norm_num) (by norm_num) (by norm_num)
  have h2 : ((49 : α) / 50) ^ 400 ≤ 1 / 1000 := by norm_num
  exact h1.trans h2

theorem descend_unit (sqrt : α → α) (hsqrt0 : ∀ x, 0 ≤ x → 0 ≤ sqrt x)
    (hsqrt : ∀ x, 0 ≤ x → sqrt x * sqrt x = x) (populations : List (Population α))
    (hunit : UnitCatalog populations) (h25 : populations.length ≤ 25) (k : Nat)
    (hk : k < populations.length) (remaining : Nat) :
    ∀ (a : α) (prevError : Option α), 0 ≤ a → (populations.length : α) * a ≤ 1 →
      (prevError = none ∨ ∃ x, 0 ≤ x ∧ a = 49 / 50 * x ∧
        prevError = some (sqrt ((populations.length : α) *
          ((populations.length : α) - 1) * (x * x)))) →
      ∃ af, descend sqrt (unitVector k) populations remaining prevError
            (peakedWeights populations.length k a) =
          peakedWeights populations.length k af ∧ 0 ≤ af ∧
        (((populations.length : α) - 1) * af ≤ 1 / 1000 ∨
          af ≤ a * (49 / 50) ^ remaining) := by
  have hn1 : (1 : α) ≤ (populations.length : α) := by
    exact_mod_cast (show 1 ≤ populations.length by omega)
  induction remaining with
  | zero =>
    intro a prevError ha _ _
    exact ⟨a, rfl, ha, Or.inr (by simp)⟩
  | succ r ih =>
    intro a prevError ha hna hprev
    rw [descend, distance_unit sqrt populations hunit h25 k hk a]
    split
    · rename_i hconv
      refine ⟨a, rfl, ha, Or.inl ?_⟩
      rcases hprev with hnone | ⟨x, hx, hax, hsome⟩
      · rw [hnone] at hconv
        simp [converged] at hconv
      · rw [hsome, hax] at hconv
        rw [hax]
        exact converged_unit_small sqrt hsqrt0 hsqrt _ x hn1 hx hconv
    · rw [updateWeights_unit populations hunit h25 k hk a ha hna]
      have ha' : (0 : α) ≤ 49 / 50 * a := by positivity
      have hna' : (populations.length : α) * (49 / 50 * a) ≤ 1 := by
        have hn : (0 : α) ≤ (populations.length : α) := Nat.cast_nonneg _
        nlinarith [mul_nonneg hn ha]
      obtain ⟨af, hdesc, haf, hbound⟩ := ih (49 / 50 * a) _ ha' hna'
        (Or.inr ⟨a, ha, rfl, rfl⟩)
      refine ⟨af, hdesc, haf, ?_⟩
      rcases hbound with hsmall | hpow
      · exact Or.inl hsmall
      · refine Or.inr (hpow.trans (le_of_eq ?_))
        rw [pow_succ]
        ring

theorem unitCatalog_valid (populations : List (Population α))
    (hunit : UnitCatalog populations) (hne : populations ≠ []) (k : Nat) :
    ValidInput (unitVector k : List α) populations := by
  refine ⟨by simp [unitVector], hne, ?_⟩
  intro pop hpop
  obtain ⟨i, hi⟩ := List.mem_iff_getElem?.mp hpop
  rw [hunit i pop hi]
  simp [unitVector]

theorem finalWeights_unit (sqrt : α → α) (hsqrt0 : ∀ x, 0 ≤ x → 0 ≤ sqrt x)
    (hsqrt : ∀ x, 0 ≤ x → sqrt x * sqrt x = x) (populations : List (Population α))
    (hunit : UnitCatalog populations) (h25 : populations.length ≤ 25) (k : Nat)
    (hk : k < populations.length) :
    ∃ af, descend sqrt (unitVector k) populations maxIterations none
          (initialWeights populations.length) =
        peakedWeights populations.length k af ∧ 0 ≤ af ∧
      ((populations.length : α) - 1) * af ≤ 1 / 1000 := by
  have hn : populations.length ≠ 0 := by omega
  have hn0 : (0 : α) < (populations.length : α) := by
    exact_mod_cast Nat.pos_of_ne_zero hn
  obtain ⟨af, hdesc, haf, hbound⟩ := descend_unit sqrt hsqrt0 hsqrt populations hunit h25 k hk
    maxIterations (1 / (populations.length : α)) none (by positivity)
    (by rw [mul_one_div, div_self hn0.ne']) (Or.inl rfl)
  refine ⟨af, ?_, haf, ?_⟩
  · rw [initialWeights_eq_peaked populations.length k hn]
    exact hdesc
  · rcases hbound with hsmall | hpow
    · exact hsmall
    · have hpow' : af ≤ 1 / (populations.length : α) * (1 / 1000) :=
        hpow.trans (mul_le_mul_of_nonneg_left (by unfold maxIterations; exact pow_decay_small)
          (by positivity))
      have h1 : ((populations.length : α) - 1) * af ≤ (populations.length : α) * af := by
        nlinarith
      have h2 : (populations.length : α) * af ≤
          (populations.length : α) * (1 / (populations.length : α) * (1 / 1000)) :=
        mul_le_mul_of_nonneg_left hpow' hn0.le
      have h3 : (populations.length : α) * (1 / (populations.length : α) * (1 / 1000)) =
          1 / 1000 := by
        field_simp
      linarith

/-! ### The loop as repeated updates -/

theorem loopUpdate_eq (target : List α) (populations : List (Population α))
    (weights : List α) (ht : target.length = 25)
    (hw : weights.length = populations.length)
    (hc : ∀ pop ∈ populations, pop.Coordinates.length = 25) :
    loopUpdate target populations weights =
      some (updateWeights target populations weights) := by
  unfold loopUpdate
  rw [computeGradients_eq target populations weights ht hw hc]
  simp only [Option.bind_eq_bind, Option.some_bind]
  rw [gradientStep_eq target populations weights hw]
  rfl

theorem applyUpdates_eq (target : List α) (populations : List (Population α))
    (ht : target.length = 25) (hc : ∀ pop ∈ populations, pop.Coordinates.length = 25)
    (k : Nat) (weights : List α) (hw : weights.length = populations.length) :
    applyUpdates target populations k weights =
      some ((updateWeights target populations)^[k] weights) := by
  induction k generalizing weights with
  | zero => rfl
  | succ k ih =>
    rw [applyUpdates, loopUpdate_eq target populations weights ht hw hc, Option.some_bind,
      ih _ (by rw [length_updateWeights, hw]), Function.iterate_succ_apply]

theorem descend_eq_iterate (sqrt : α → α) (target : List α)
    (populations : List (Population α)) (remaining : Nat) (prevError : Option α)
    (weights : List α) :
    ∃ k, k ≤ remaining ∧
      descend sqrt target populations remaining prevError weights =
        (updateWeights target populations)^[k] weights ∧
      (prevError = none → 1 ≤ remaining → 1 ≤ k) := by
  induction remaining generalizing prevError weights with
  | zero => exact ⟨0, le_refl 0, rfl, fun _ h => absurd h (by omega)⟩
  | succ r ih =>
    rw [descend]
    by_cases hconv : converged prevError (distance sqrt target (mixture populations weights))
    · refine ⟨0, Nat.zero_le _, by rw [if_pos hconv]; rfl, ?_⟩
      intro hnone _
      rw [hnone] at hconv
      simp [converged] at hconv
    · obtain ⟨k, hk, hdesc, _⟩ := ih
        (some (distance sqrt target (mixture populations weights)))
        (updateWeights target populations weights)
      refine ⟨k + 1, by omega, ?_, fun _ _ => by omega⟩
      rw [if_neg hconv, hdesc, Function.iterate_succ_apply]

/-! ### Vector algebra -/

theorem map_range_eq_zipWith {β γ δ : Type} (f : β → γ → δ) (a : List β) (b : List γ)
    (da : β) (db : γ) (h : a.length = b.length) :
    (List.range a.length).map (fun i => f (a.getD i da) (b.getD i db)) =
      List.zipWith f a b := by
  apply List.ext_getElem
  · simp [h]
  · intro i h1 h2
    have hia : i < a.length := by simpa using h1
    have hib : i < b.length := h ▸ hia
    simp [List.getElem?_eq_getElem hia, List.getElem?_eq_getElem hib]

theorem distance_eq_zipWith (sqrt : α → α) (a b : List α) (h : a.length = b.length) :
    distance sqrt a b = sqrt (List.zipWith (fun x y => (x - y) ^ 2) a b).sum := by
  unfold distance
  rw [map_range_eq_zipWith (fun x y => (x - y) * (x - y)) a b 0 0 h]
  have hfun : (fun x y : α => (x - y) * (x - y)) = fun x y => (x - y) ^ 2 := by
    funext x y
    ring
  rw [hfun]

theorem euclideanDistance_eq_none_iff (sqrt : α → α) (a b : List α) :
    euclideanDistance sqrt a b = none ↔ a.length ≠ b.length := by
  constructor
  · intro hnone hlen
    rw [euclideanDistance_eq sqrt a b hlen] at hnone
    cases hnone
  · intro hlen
    unfold euclideanDistance
    rw [if_pos hlen]

theorem sum_zipWith_sq_nonneg (a b : List α) :
    0 ≤ (List.zipWith (fun x y => (x - y) ^ 2) a b).sum := by
  apply List.sum_nonneg
  intro x hx
  obtain ⟨i, _, rfl⟩ := List.getElem_of_mem hx
  simp only [List.getElem_zipWith]
  positivity

theorem sum_zipWith_sq_eq_zero_iff (a b : List α) (h : a.length = b.length) :
    (List.zipWith (fun x y => (x - y) ^ 2) a b).sum = 0 ↔ a = b := by
  induction a generalizing b with
  | nil =>
    cases b with
    | nil => simp
    | cons y ys => simp at h
  | cons x xs ih =>
    cases b with
    | nil => simp at h
    | cons y ys =>
      have hlen : xs.length = ys.length := by simpa using h
      rw [List.zipWith_cons_cons, List.sum_cons,
        add_eq_zero_iff_of_nonneg (by positivity) (sum_zipWith_sq_nonneg xs ys), ih ys hlen]
      constructor
      · rintro ⟨hxy, rfl⟩
        have : x - y = 0 := by simpa using hxy
        rw [sub_eq_zero.mp this]
      · intro heq
        obtain ⟨rfl, rfl⟩ := List.cons.inj heq
        simp

theorem sqrt_eq_zero_iff (sqrt : α → α) (hs : ∀ x, 0 ≤ x → sqrt x * sqrt x = x) (x : α)
    (hx : 0 ≤ x) : sqrt x = 0 ↔ x = 0 := by
  constructor
  · intro h0
    have := hs x hx
    rw [h0] at this
    simpa using this.symm
  · intro h0
    subst h0
    exact mul_self_eq_zero.mp (hs 0 hx)

theorem zipWith_sq_comm (a b : List α) :
    List.zipWith (fun x y => (x - y) ^ 2) a b = List.zipWith (fun x y => (x - y) ^ 2) b a := by
  rw [List.zipWith_comm]
  have hfun : (fun (y x : α) => (x - y) ^ 2) = fun y x => (y - x) ^ 2 := by
    funext y x
    ring
  rw [hfun]

theorem foldl_sq_eq_sum (v : List α) :
    v.foldl (fun sumSquares val => sumSquares + val * val) 0 =
      (v.map (fun x => x ^ 2)).sum := by
  have h : ∀ (l : List α) (acc : α),
      l.foldl (fun sumSquares val => sumSquares + val * val) acc =
        acc + (l.map (fun x => x ^ 2)).sum := by
    intro l
    induction l with
    | nil => intro acc; simp
    | cons x xs ih =>
      intro acc
      rw [List.foldl_cons, ih, List.map_cons, List.sum_cons]
      ring
  rw [h v 0, zero_add]

theorem sum_sq_map_div (v : List α) (c : α) :
    ((v.map (fun x => x / c)).map (fun x => x ^ 2)).sum =
      (v.map (fun x => x ^ 2)).sum / c ^ 2 := by
  induction v with
  | nil => simp
  | cons x xs ih =>
    simp only [List.map_cons, List.sum_cons, ih]
    rw [div_pow, add_div]

/-! ### Presentation -/

theorem foldl_cond_add_eq_sum {β : Type} (p : β → Prop) [DecidablePred p] (g : β → α)
    (l : List β) (acc : α) :
    l.foldl (fun total x => if p x then total + g x else total) acc =
      acc + ((l.filter (fun x => decide (p x))).map g).sum := by
  induction l generalizing acc with
  | nil => simp
  | cons x xs ih =>
    rw [List.foldl_cons, ih]
    by_cases hp : p x
    · simp [hp, add_assoc]
    · simp [hp]

theorem filterMap_cond_eq_map_filter {β γ : Type} (p : β → Prop) [DecidablePred p]
    (g : β → γ) (l : List β) :
    l.filterMap (fun x => if p x then some (g x) else none) =
      (l.filter (fun x => decide (p x))).map g := by
  induction l with
  | nil => rfl
  | cons x xs ih =>
    by_cases hp : p x
    · simp [List.filterMap_cons, hp, ih]
    · simp [List.filterMap_cons, hp, ih]

theorem displayResults_eq (results : List (AncestryResult α)) :
    displayResults results =
      ((sortAncestryResults results).filter
          (fun r => decide (r.Proportion > 1 / 1000))).map
        (fun r => (r.Population.Label,
          r.Proportion / (((sortAncestryResults results).filter
            (fun r => decide (r.Proportion > 1 / 1000))).map
              (fun r => r.Proportion)).sum * 100)) := by
  unfold displayResults
  dsimp only
  rw [foldl_cond_add_eq_sum (fun r : AncestryResult α => r.Proportion > 1 / 1000)
    (fun r => r.Proportion), zero_add,
    filterMap_cond_eq_map_filter (fun r : AncestryResult α => r.Proportion > 1 / 1000)]

theorem sum_map_div_mul (l : List α) (s c : α) :
    (l.map (fun x => x / s * c)).sum = l.sum / s * c := by
  induction l with
  | nil => simp
  | cons x xs ih =>
    simp only [List.map_cons, List.sum_cons, ih]
    ring

/-! ### The gradient -/

theorem sumSquaredDiffs_eq (v1 v2 : List α) (h : v1.length = v2.length) :
    sumSquaredDiffs v1 v2 = some ((List.range v1.length).map
      (fun i => (v1.getD i 0 - v2.getD i 0) * (v1.getD i 0 - v2.getD i 0))).sum := by
  unfold sumSquaredDiffs
  rw [foldlM_add_eq_some _ (fun i => (v1.getD i 0 - v2.getD i 0) * (v1.getD i 0 - v2.getD i 0))]
  · simp
  · intro acc i hi
    have hi' : i < v1.length := List.mem_range.mp hi
    rw [getElem?_eq_some_getD v1 i 0 hi', getElem?_eq_some_getD v2 i 0 (by omega)]
    simp

theorem vectorSubtract_eq (v1 v2 : List α) (h : v1.length = v2.length) :
    vectorSubtract v1 v2 =
      some ((List.range v1.length).map (fun i => v1.getD i 0 - v2.getD i 0)) := by
  unfold vectorSubtract
  rw [if_neg (by simpa using h)]
  apply mapM_eq_some_map
  intro i hi
  have hi' : i < v1.length := List.mem_range.mp hi
  rw [getElem?_eq_some_getD v1 i 0 hi', getElem?_eq_some_getD v2 i 0 (by omega)]
  rfl

theorem dotProduct_eq (v1 v2 : List α) (h : v1.length = v2.length) :
    dotProduct v1 v2 =
      some ((List.range v1.length).map (fun i => v1.getD i 0 * v2.getD i 0)).sum := by
  unfold dotProduct
  rw [if_neg (by simpa using h),
    foldlM_add_eq_some _ (fun i => v1.getD i 0 * v2.getD i 0)]
  · simp
  · intro acc i hi
    have hi' : i < v1.length := List.mem_range.mp hi
    rw [getElem?_eq_some_getD v1 i 0 hi', getElem?_eq_some_getD v2 i 0 (by omega)]
    simp

theorem sum_map_mul_left_const (l : List Nat) (f : Nat → α) (c : α) :
    (l.map (fun d => c * f d)).sum = c * (l.map f).sum := by
  induction l with
  | nil => simp
  | cons x xs ih => simp [ih, mul_add]

theorem gradAt_eq_two_mul_dot (target : List α) (populations : List (Population α))
    (weights : List α) (i : Nat) :
    gradAt target populations weights i =
      2 * ((List.range 25).map (fun d =>
        (mixtureAt populations weights d - target.getD d 0) * coordAt populations i d)).sum := by
  unfold gradAt
  rw [← sum_map_mul_left_const]
  congr 1
  apply List.map_congr_left
  intro d _
  ring

theorem squaredError_eq (target : List α) (populations : List (Population α))
    (weights : List α) (ht : target.length = 25)
    (hw : weights.length = populations.length)
    (hc : ∀ pop ∈ populations, pop.Coordinates.length = 25) :
    squaredError target populations weights =
      some ((List.range 25).map (fun d =>
        (mixtureAt populations weights d - target.getD d 0) ^ 2)).sum := by
  unfold squaredError
  rw [weightedAverage_eq populations weights hw hc, Option.some_bind,
    sumSquaredDiffs_eq _ _ (by rw [length_mixture, ht]), length_mixture]
  congr 2
  apply List.map_congr_left
  intro d hd
  unfold mixture
  rw [getD_map_range _ 25 d 0 (List.mem_range.mp hd)]
  ring

theorem getD_set_eq (weights : List α) (i j : Nat) (x : α) (hi : i < weights.length) :
    (weights.set i x).getD j 0 =
      weights.getD j 0 + (x - weights.getD i 0) * (if j = i then 1 else 0) := by
  by_cases hji : j = i
  · subst hji
    simp [List.getD, List.getElem?_set, hi]
  · have hij : ¬ i = j := fun h => hji h.symm
    simp [List.getD, List.getElem?_set, hji, hij]

theorem mixtureAt_set (populations : List (Population α)) (weights : List α) (i d : Nat)
    (x : α) (hw : weights.length = populations.length) (hi : i < populations.length) :
    mixtureAt populations (weights.set i x) d =
      mixtureAt populations weights d + (x - weights.getD i 0) * coordAt populations i d := by
  unfold mixtureAt
  have hcongr : (List.range populations.length).map
        (fun j => (weights.set i x).getD j 0 * coordAt populations j d) =
      (List.range populations.length).map
        (fun j => weights.getD j 0 * coordAt populations j d +
          (x - weights.getD i 0) * coordAt populations j d * (if j = i then 1 else 0)) := by
    apply List.map_congr_left
    intro j _
    rw [getD_set_eq weights i j x (by omega)]
    ring
  rw [hcongr, sum_map_range_eq, Finset.sum_add_distrib, ← sum_map_range_eq,
    ← sum_map_range_eq (fun j =>
      (x - weights.getD i 0) * coordAt populations j d * (if j = i then 1 else 0)),
    sum_range_indicator (fun j => (x - weights.getD i 0) * coordAt populations j d) i _,
    if_pos hi]

theorem squaredError_set (target : List α) (populations : List (Population α))
    (weights : List α) (i : Nat) (x : α) (ht : target.length = 25)
    (hw : weights.length = populations.length)
    (hc : ∀ pop ∈ populations, pop.Coordinates.length = 25) (hi : i < populations.length) :
    (squaredError target populations (weights.set i x)).getD 0 =
      (squaredError target populations weights).getD 0 +
        (x - weights.getD i 0) * gradAt target populations weights i +
        (x - weights.getD i 0) ^ 2 *
          ((List.range 25).map (fun d => coordAt populations i d ^ 2)).sum := by
  rw [squaredError_eq target populations _ ht (by rw [List.length_set, hw]) hc,
    squaredError_eq target populations weights ht hw hc, gradAt_eq_two_mul_dot]
  simp only [Option.getD_some]
  have hcongr : (List.range 25).map (fun d =>
        (mixtureAt populations (weights.set i x) d - target.getD d 0) ^ 2) =
      (List.range 25).map (fun d =>
        (mixtureAt populations weights d - target.getD d 0) ^ 2 +
          ((x - weights.getD i 0) * (2 * ((mixtureAt populations weights d - target.getD d 0) *
            coordAt populations i d)) +
          (x - weights.getD i 0) ^ 2 * coordAt populations i d ^ 2)) := by
    apply List.map_congr_left
    intro d _
    rw [mixtureAt_set populations weights i d x hw hi]
    ring
  rw [hcongr, sum_map_range_eq, Finset.sum_add_distrib, Finset.sum_add_distrib,
    ← Finset.mul_sum, ← Finset.mul_sum, ← Finset.mul_sum, ← sum_map_range_eq,
    ← sum_map_range_eq, ← sum_map_range_eq]
  ring

/-! ### The mean vector -/

theorem meanVector_fold_eq (dimensions : Nat) (vectors : List (List α))
    (hv : ∀ v ∈ vectors, v.length = dimensions) (acc : List α)
    (hacc : acc.length = dimensions) :
    vectors.foldlM
        (fun result v =>
          if v.length ≠ dimensions then none
          else
            (List.range dimensions).mapM
              (fun i => do
                let r ← result[i]?
                let x ← v[i]?
                pure (r + x)))
        acc =
      some ((List.range dimensions).map
        (fun d => acc.getD d 0 + (vectors.map (fun v => v.getD d 0)).sum)) := by
  induction vectors generalizing acc with
  | nil =>
    have h : (List.range dimensions).map (fun d => acc.getD d 0 + 0) = acc := by
      simp only [add_zero]
      rw [← hacc]
      exact map_getD_range acc 0
    simp only [List.foldlM_nil, List.map_nil, List.sum_nil, Option.pure_def]
    rw [h]
  | cons v vs ih =>
    have hvl : v.length = dimensions := hv v (List.mem_cons_self _ _)
    have hstep : (List.range dimensions).mapM
          (fun i => do
            let r ← acc[i]?
            let x ← v[i]?
            pure (r + x)) =
        some ((List.range dimensions).map (fun i => acc.getD i 0 + v.getD i 0)) := by
      apply mapM_eq_some_map
      intro i hi
      have hi' : i < dimensions := List.mem_range.mp hi
      rw [getElem?_eq_some_getD acc i 0 (by omega), getElem?_eq_some_getD v i 0 (by omega)]
      rfl
    rw [List.foldlM_cons, if_neg (by simpa using hvl), hstep]
    refine (ih (fun u hu => hv u (List.mem_cons_of_mem _ hu)) _ (by simp)).trans ?_
    congr 1
    apply List.map_congr_left
    intro d hd
    rw [getD_map_range _ dimensions d 0 (List.mem_range.mp hd), List.map_cons, List.sum_cons]
    ring

theorem meanVector_eq (dimensions : Nat) (vectors : List (List α)) (hne : vectors ≠ [])
    (hv : ∀ v ∈ vectors, v.length = dimensions) :
    meanVector vectors =
      some ((List.range dimensions).map
        (fun d => (vectors.map (fun v => v.getD d 0)).sum / (vectors.length : α))) := by
  cases vectors with
  | nil => exact absurd rfl hne
  | cons first rest =>
    have hfirst : first.length = dimensions := hv first (List.mem_cons_self _ _)
    unfold meanVector
    simp only [hfirst]
    rw [meanVector_fold_eq dimensions (first :: rest) hv _ (by simp)]
    simp only [Option.bind_eq_bind, Option.some_bind, Option.pure_def, List.map_map]
    congr 1
    apply List.map_congr_left
    intro d hd
    have hd' : d < dimensions := List.mem_range.mp hd
    simp [List.getD, List.getElem?_replicate, hd']

theorem sum_coordAt_eq (populations : List (Population α)) (d : Nat) :
    ((List.range populations.length).map (fun i => coordAt populations i d)).sum =
      ((populations.map (fun pop => pop.Coordinates)).map (fun v => v.getD d 0)).sum := by
  have h : (List.range populations.length).map (fun i => coordAt populations i d) =
      ((List.range populations.length).map (fun i => populations.getD i default)).map
        (fun pop => pop.Coordinates.getD d 0) := by
    rw [List.map_map]
    rfl
  rw [h, map_getD_range, List.map_map]
  rfl

theorem mixtureAt_initialWeights (populations : List (Population α)) (d : Nat) :
    mixtureAt populations (initialWeights populations.length) d =
      ((populations.map (fun pop => pop.Coordinates)).map (fun v => v.getD d 0)).sum /
        (populations.length : α) := by
  unfold mixtureAt
  have hcongr : (List.range populations.length).map
        (fun i => (initialWeights populations.length : List α).getD i 0 *
          coordAt populations i d) =
      (List.range populations.length).map
        (fun i => 1 / (populations.length : α) * coordAt populations i d) := by
    apply List.map_congr_left
    intro i hi
    have hi' : i < populations.length := List.mem_range.mp hi
    simp [initialWeights, List.getD, List.getElem?_replicate, hi']
  rw [hcongr, sum_map_mul_left_const, sum_coordAt_eq]
  ring

theorem mixtureAt_of_meanVector (target : List α) (populations : List (Population α))
    (hne : populations ≠ [])
    (hc : ∀ pop ∈ populations, pop.Coordinates.length = 25)
    (hmean : meanVector (populations.map (fun pop => pop.Coordinates)) = some target) :
    target.length = 25 ∧ ∀ d, d < 25 →
      mixtureAt populations (initialWeights populations.length) d = target.getD d 0 := by
  have hv : ∀ v ∈ populations.map (fun pop => pop.Coordinates), v.length = 25 := by
    intro v hv
    obtain ⟨pop, hpop, rfl⟩ := List.mem_map.mp hv
    exact hc pop hpop
  rw [meanVector_eq 25 _ (by simpa using hne) hv] at hmean
  have htarget := (Option.some.inj hmean).symm
  subst htarget
  refine ⟨by simp, ?_⟩
  intro d hd
  rw [getD_map_range _ 25 d 0 hd, mixtureAt_initialWeights, List.length_map]

theorem meanVector_unit_pair :
    meanVector [(unitVector 0 : List α), unitVector 1] = some halfHalfTarget := by
  have hv : ∀ v ∈ [(unitVector 0 : List α), unitVector 1], v.length = 25 := by
    intro v hv
    rcases List.mem_cons.mp hv with rfl | hv
    · simp [unitVector]
    · rw [List.mem_singleton.mp hv]
      simp [unitVector]
  rw [meanVector_eq 25 _ (by simp) hv]
  unfold halfHalfTarget
  congr 1
  apply List.map_congr_left
  intro d hd
  have hd' : d < 25 := List.mem_range.mp hd
  simp only [List.map_cons, List.map_nil, List.sum_cons, List.sum_nil, List.length_cons,
    List.length_nil, getD_unitVector _ d hd']
  rcases Nat.lt_or_ge d 2 with h2 | h2
  · interval_cases d <;> norm_num
  · have h0 : d ≠ 0 := by omega
    have h1 : d ≠ 1 := by omega
    have h2' : ¬ d < 2 := by omega
    simp [h0, h1, h2']

/-! ### The loader -/

omit [LinearOrderedField α] in
theorem splitComma_ne_nil (s : List Char) : splitComma s ≠ [] := by
  cases s with
  | nil => simp [splitComma]
  | cons c cs =>
    rw [splitComma]
    split
    · simp
    · split <;> simp

omit [LinearOrderedField α] in
theorem splitComma_of_splitFirstComma_none (s : List Char)
    (h : splitFirstComma s = none) : splitComma s = [s] := by
  induction s with
  | nil => rfl
  | cons c cs ih =>
    rw [splitFirstComma] at h
    split at h
    · cases h
    · rename_i hc
      have hcs : splitFirstComma cs = none := by
        cases hsplit : splitFirstComma cs with
        | none => rfl
        | some p =>
          rw [hsplit] at h
          cases h
      rw [splitComma, if_neg hc, ih hcs]

omit [LinearOrderedField α] in
theorem splitComma_of_splitFirstComma_some (s before after : List Char)
    (h : splitFirstComma s = some (before, after)) :
    splitComma s = before :: splitComma after := by
  induction s generalizing before with
  | nil => cases h
  | cons c cs ih =>
    rw [splitFirstComma] at h
    split at h
    · rename_i hc
      obtain ⟨rfl, rfl⟩ := Prod.mk.inj (Option.some.inj h)
      rw [splitComma, if_pos hc]
    · rename_i hc
      cases hsplit : splitFirstComma cs with
      | none =>
        rw [hsplit] at h
        cases h
      | some p =>
        obtain ⟨b, a⟩ := p
        rw [hsplit] at h
        obtain ⟨rfl, rfl⟩ := Prod.mk.inj (Option.some.inj h)
        rw [splitComma, if_neg hc, ih b hsplit]

omit [LinearOrderedField α] in
theorem parseCoordinates_ok (parseFloat : String → Option α) (lineNum i : Nat)
    (fields : List (List Char)) (coordinates : List α)
    (h : parseCoordinates parseFloat lineNum i fields = .ok coordinates) :
    coordinates.map some =
      fields.map (fun field => parseFloat (String.mk (trimSpace field))) := by
  induction fields generalizing i coordinates with
  | nil =>
    rw [parseCoordinates] at h
    cases h
    rfl
  | cons field rest ih =>
    rw [parseCoordinates] at h
    cases hval : parseFloat (String.mk (trimSpace field)) with
    | none =>
      rw [hval] at h
      cases h
    | some value =>
      rw [hval] at h
      cases hrest : parseCoordinates parseFloat lineNum (i + 1) rest with
      | error err =>
        rw [hrest] at h
        cases h
      | ok values =>
        rw [hrest] at h
        cases h
        rw [List.map_cons, List.map_cons, ih (i + 1) values hrest, hval]

omit [LinearOrderedField α] in
theorem parseCoordinates_error (parseFloat : String → Option α) (lineNum i : Nat)
    (fields : List (List Char)) (err : ParseError)
    (h : parseCoordinates parseFloat lineNum i fields = .error err) :
    err.lineNumber = some lineNum ∧
      ∃ field ∈ fields, parseFloat (String.mk (trimSpace field)) = none := by
  induction fields generalizing i with
  | nil =>
    rw [parseCoordinates] at h
    cases h
  | cons field rest ih =>
    rw [parseCoordinates] at h
    cases hval : parseFloat (String.mk (trimSpace field)) with
    | none =>
      rw [hval] at h
      cases h
      exact ⟨rfl, field, List.mem_cons_self _ _, hval⟩
    | some value =>
      rw [hval] at h
      cases hrest : parseCoordinates parseFloat lineNum (i + 1) rest with
      | error err' =>
        rw [hrest] at h
        cases h
        obtain ⟨hline, f, hf, hnone⟩ := ih (i + 1) hrest
        exact ⟨hline, f, List.mem_cons_of_mem _ hf, hnone⟩
      | ok values =>
        rw [hrest] at h
        cases h

omit [LinearOrderedField α] in
theorem parseLine_cases (parseFloat : String → Option α) (period : String) (lineNum : Nat)
    (text : String) :
    (isDataLine text = false ∧ parseLine parseFloat period lineNum text = .ok none) ∨
      (isDataLine text = true ∧ WellFormedLine parseFloat text ∧
        ∃ pop, parseLine parseFloat period lineNum text = .ok (some pop) ∧
          LineYields parseFloat period pop text ∧ pop.Coordinates.length = 25) ∨
      (isDataLine text = true ∧ ¬ WellFormedLine parseFloat text ∧
        ∃ err, parseLine parseFloat period lineNum text = .error err ∧
          err.lineNumber = some lineNum) := by
  by_cases hskip : trimSpace text.data = [] ∨ (trimSpace text.data).head? = some '#'
  · left
    refine ⟨?_, ?_⟩
    · unfold isDataLine
      rw [decide_eq_false_iff_not]
      intro hdata
      rcases hskip with h | h
      · exact hdata.1 h
      · exact hdata.2 h
    · unfold parseLine
      dsimp only
      rw [if_pos hskip]
  · right
    have hdata : isDataLine text = true := by
      unfold isDataLine
      rw [decide_eq_true_iff]
      exact ⟨fun h => hskip (Or.inl h), fun h => hskip (Or.inr h)⟩
    unfold parseLine WellFormedLine LineYields
    dsimp only
    rw [if_neg hskip]
    cases hsplit : splitFirstComma (trimSpace text.data) with
    | none =>
      right
      refine ⟨hdata, ?_, _, rfl, rfl⟩
      rw [splitComma_of_splitFirstComma_none _ hsplit]
      intro hwf
      simp at hwf
    | some p =>
      obtain ⟨label, coordsStr⟩ := p
      rw [splitComma_of_splitFirstComma_some _ label coordsStr hsplit]
      simp only [List.length_cons, List.tail_cons, List.head?_cons, Option.map_some']
      by_cases hcount : (splitComma coordsStr).length = 25
      · rw [if_neg (by simpa using hcount)]
        cases hcoords : parseCoordinates parseFloat lineNum 0 (splitComma coordsStr) with
        | error err =>
          right
          obtain ⟨hline, field, hfield, hnone⟩ :=
            parseCoordinates_error parseFloat lineNum 0 _ err hcoords
          refine ⟨hdata, ?_, err, rfl, hline⟩
          intro hwf
          have := hwf.2 field hfield
          rw [hnone] at this
          cases this
        | ok coordinates =>
          left
          have hmap := parseCoordinates_ok parseFloat lineNum 0 _ coordinates hcoords
          refine ⟨hdata, ⟨by omega, ?_⟩, _, rfl, ⟨rfl, hmap, rfl⟩, ?_⟩
          · intro field hfield
            have hmem : parseFloat (String.mk (trimSpace field)) ∈
                coordinates.map some := by
              rw [hmap]
              exact List.mem_map_of_mem _ hfield
            obtain ⟨value, _, hvalue⟩ := List.mem_map.mp hmem
            rw [← hvalue]
            rfl
          · have hlen := congrArg List.length hmap
            simpa [hcount] using hlen
      · right
        rw [if_pos (by simpa using hcount)]
        refine ⟨hdata, ?_, _, rfl, rfl⟩
        intro hwf
        exact hcount (by omega)

omit [LinearOrderedField α] in
theorem parseLines_ok (parseFloat : String → Option α) (period : String) (lineNum : Nat)
    (lines : List String) (acc populations : List (Population α))
    (h : parseLines parseFloat period lineNum lines acc = .ok populations) :
    ∃ added, populations = acc ++ added ∧
      List.Forall₂ (LineYields parseFloat period) added (lines.filter isDataLine) ∧
      (∀ pop ∈ added, pop.Coordinates.length = 25) ∧
      ∀ text ∈ lines, isDataLine text = true → WellFormedLine parseFloat text := by
  induction lines generalizing lineNum acc with
  | nil =>
    rw [parseLines] at h
    cases h
    exact ⟨[], by simp, List.Forall₂.nil, by simp, by simp⟩
  | cons text rest ih =>
    rw [parseLines] at h
    rcases parseLine_cases parseFloat period (lineNum + 1) text with
      ⟨hdata, hline⟩ | ⟨hdata, hwf, pop, hline, hyields, hlen⟩ | ⟨hdata, _, err, hline, _⟩
    · rw [hline] at h
      obtain ⟨added, hpops, hforall, hcoords, hall⟩ := ih (lineNum + 1) acc h
      refine ⟨added, hpops, ?_, hcoords, ?_⟩
      · rw [List.filter_cons_of_neg (by simp [hdata])]
        exact hforall
      · intro t ht htdata
        rcases List.mem_cons.mp ht with rfl | ht'
        · rw [hdata] at htdata
          cases htdata
        · exact hall t ht' htdata
    · rw [hline] at h
      obtain ⟨added, hpops, hforall, hcoords, hall⟩ := ih (lineNum + 1) (acc ++ [pop]) h
      refine ⟨pop :: added, by rw [hpops, List.append_assoc]; rfl, ?_, ?_, ?_⟩
      · rw [List.filter_cons_of_pos hdata]
        exact List.Forall₂.cons hyields hforall
      · intro q hq
        rcases List.mem_cons.mp hq with rfl | hq'
        · exact hlen
        · exact hcoords q hq'
      · intro t ht htdata
        rcases List.mem_cons.mp ht with rfl | ht'
        · exact hwf
        · exact hall t ht' htdata
    · rw [hline] at h
      cases h

omit [LinearOrderedField α] in
theorem parseLines_error_first (parseFloat : String → Option α) (period : String)
    (lineNum : Nat) (lines : List String) (acc : List (Population α)) (i : Nat)
    (text : String) (hget : lines[i]? = some text) (hdata : isDataLine text = true)
    (hbad : ¬ WellFormedLine parseFloat text)
    (hbefore : ∀ j, j < i → ∀ t, lines[j]? = some t → isDataLine t = true →
      WellFormedLine parseFloat t) :
    ∃ err, parseLines parseFloat period lineNum lines acc = .error err ∧
      err.lineNumber = some (lineNum + i + 1) := by
  induction lines generalizing lineNum acc i with
  | nil => simp at hget
  | cons first rest ih =>
    rw [parseLines]
    cases i with
    | zero =>
      have hfirst : first = text := by simpa using hget
      subst hfirst
      rcases parseLine_cases parseFloat period (lineNum + 1) first with
        ⟨hd, _⟩ | ⟨_, hwf, _⟩ | ⟨_, _, err, hline, hnum⟩
      · rw [hdata] at hd
        cases hd
      · exact absurd hwf hbad
      · rw [hline]
        exact ⟨err, rfl, hnum⟩
    | succ i =>
      have hget' : rest[i]? = some text := by simpa using hget
      have hbefore' : ∀ j, j < i → ∀ t, rest[j]? = some t → isDataLine t = true →
          WellFormedLine parseFloat t := by
        intro j hj t ht
        exact hbefore (j + 1) (by omega) t (by simpa using ht)
      rcases parseLine_cases parseFloat period (lineNum + 1) first with
        ⟨_, hline⟩ | ⟨_, _, pop, hline, _⟩ | ⟨hd, hnwf, _⟩
      · rw [hline]
        obtain ⟨err, herr, hnum⟩ := ih (lineNum + 1) acc i hget' hbefore'
        exact ⟨err, herr, by rw [hnum]; congr 1; omega⟩
      · rw [hline]
        obtain ⟨err, herr, hnum⟩ := ih (lineNum + 1) (acc ++ [pop]) i hget' hbefore'
        exact ⟨err, herr, by rw [hnum]; congr 1; omega⟩
      · exact absurd (hbefore 0 (by omega) first (by simp) hd) hnwf

omit [LinearOrderedField α] in
theorem parseG25File_ok (parseFloat : String → Option α) (period : String)
    (file : ScannedFile) (populations : List (Population α))
    (h : parseG25File parseFloat period (some file) = .ok populations) :
    populations ≠ [] ∧ parseLines parseFloat period 0 file.lines [] = .ok populations := by
  unfold parseG25File at h
  dsimp only at h
  cases hlines : parseLines parseFloat period 0 file.lines [] with
  | error err =>
    rw [hlines] at h
    cases h
  | ok pops =>
    rw [hlines] at h
    dsimp only at h
    split at h
    · cases h
    · split at h
      · cases h
      · rename_i hlen
        cases h
        exact ⟨fun hnil => hlen (by rw [hnil]; rfl), rfl⟩

omit [LinearOrderedField α] in
theorem parseG25File_error_of_lines (parseFloat : String → Option α) (period : String)
    (file : ScannedFile) (err : ParseError)
    (h : parseLines parseFloat period 0 file.lines [] = .error err) :
    parseG25File parseFloat period (some file) = .error err := by
  unfold parseG25File
  dsimp only
  rw [h]

theorem parseG25File_sample :
    parseG25File (parseDigits : String → Option ℚ) "bronze"
        (some { lines := ["# reference", "", sampleLine], readFailed := false }) =
      .ok [{ Label := "Pop_A",
             Coordinates := (List.range 25).map (fun n => ((n + 1 : ℕ) : ℚ)),
             Period := "bronze" }] := by
  rfl

/-! ### A catalog of two short orthogonal vectors -/

theorem getD_scaledUnitVector (k : Nat) (c : α) (d : Nat) (hd : d < 25) :
    (scaledUnitVector k c).getD d 0 = if d = k then c else 0 :=
  getD_map_range _ 25 d 0 hd

theorem sqrt_eq_of_mul_self (sqrt : α → α) (hs0 : ∀ x, 0 ≤ x → 0 ≤ sqrt x)
    (hs : ∀ x, 0 ≤ x → sqrt x * sqrt x = x) (x y : α) (hy : 0 ≤ y) (h : y * y = x) :
    sqrt x = y := by
  have hx : 0 ≤ x := h ▸ mul_self_nonneg y
  exact (mul_self_inj (hs0 x hx) hy).mp (by rw [hs x hx, h])

theorem mixtureAt_pair (A B : Population α) (p q a b : α)
    (hA : A.Coordinates = scaledUnitVector 0 p) (hB : B.Coordinates = scaledUnitVector 1 q)
    (d : Nat) (hd : d < 25) :
    mixtureAt [A, B] [a, b] d =
      a * (if d = 0 then p else 0) + b * (if d = 1 then q else 0) := by
  simp only [mixtureAt, coordAt, List.length_cons, List.length_nil, List.range_succ,
    List.range_zero, List.nil_append, List.cons_append, List.map_cons, List.map_nil,
    List.getD_cons_zero, List.getD_cons_succ, hA, hB, getD_scaledUnitVector _ _ d hd,
    List.sum_cons, List.sum_nil, add_zero, zero_add]

theorem gradAt_pair (A B : Population α) (p q a b : α)
    (hA : A.Coordinates = scaledUnitVector 0 p) (hB : B.Coordinates = scaledUnitVector 1 q) :
    gradAt (scaledUnitVector 0 p) [A, B] [a, b] 0 = 2 * (a * p - p) * p ∧
      gradAt (scaledUnitVector 0 p) [A, B] [a, b] 1 = 2 * (b * q) * q := by
  constructor
  · unfold gradAt
    have hcongr : (List.range 25).map (fun d =>
          2 * (mixtureAt [A, B] [a, b] d - (scaledUnitVector 0 p).getD d 0) *
            coordAt [A, B] 0 d) =
        (List.range 25).map (fun d =>
          (2 * (mixtureAt [A, B] [a, b] d - (scaledUnitVector 0 p).getD d 0) * p) *
            (if d = 0 then 1 else 0)) := by
      apply List.map_congr_left
      intro d hd
      have hd' : d < 25 := List.mem_range.mp hd
      simp only [coordAt, List.getD_cons_zero, hA, getD_scaledUnitVector _ _ d hd']
      by_cases h0 : d = 0 <;> simp [h0]
    rw [hcongr, sum_range_indicator _ 0 25, if_pos (by norm_num),
      mixtureAt_pair A B p q a b hA hB 0 (by norm_num),
      getD_scaledUnitVector _ _ 0 (by norm_num)]
    simp
  · unfold gradAt
    have hcongr : (List.range 25).map (fun d =>
          2 * (mixtureAt [A, B] [a, b] d - (scaledUnitVector 0 p).getD d 0) *
            coordAt [A, B] 1 d) =
        (List.range 25).map (fun d =>
          (2 * (mixtureAt [A, B] [a, b] d - (scaledUnitVector 0 p).getD d 0) * q) *
            (if d = 1 then 1 else 0)) := by
      apply List.map_congr_left
      intro d hd
      have hd' : d < 25 := List.mem_range.mp hd
      simp only [coordAt, List.getD_cons_zero, List.getD_cons_succ, hB,
        getD_scaledUnitVector _ _ d hd']
      by_cases h1 : d = 1 <;> simp [h1]
    rw [hcongr, sum_range_indicator _ 1 25, if_pos (by norm_num),
      mixtureAt_pair A B p q a b hA hB 1 (by norm_num),
      getD_scaledUnitVector _ _ 1 (by norm_num)]
    simp

theorem updateWeights_pair (A B : Population α) (p q a b : α)
    (hA : A.Coordinates = scaledUnitVector 0 p) (hB : B.Coordinates = scaledUnitVector 1 q) :
    updateWeights (scaledUnitVector 0 p) [A, B] [a, b] =
      projectToSimplex [a - learningRate * (2 * (a * p - p) * p),
        b - learningRate * (2 * (b * q) * q)] := by
  unfold updateWeights steppedWeights
  simp only [List.length_cons, List.length_nil, List.range_succ, List.range_zero,
    List.nil_append, List.cons_append, List.map_cons, List.map_nil, List.getD_cons_zero,
    List.getD_cons_succ, (gradAt_pair A B p q a b hA hB).1, (gradAt_pair A B p q a b hA hB).2]

theorem distance_pair (sqrt : α → α) (A B : Population α) (p q a b : α)
    (hA : A.Coordinates = scaledUnitVector 0 p) (hB : B.Coordinates = scaledUnitVector 1 q) :
    distance sqrt (scaledUnitVector 0 p) (mixture [A, B] [a, b]) =
      sqrt ((p - a * p) * (p - a * p) + (b * q) * (b * q)) := by
  unfold distance
  congr 1
  have hlen : (scaledUnitVector 0 p : List α).length = 25 := by simp [scaledUnitVector]
  rw [hlen]
  have hcongr : (List.range 25).map (fun i =>
        ((scaledUnitVector 0 p).getD i 0 - (mixture [A, B] [a, b]).getD i 0) *
          ((scaledUnitVector 0 p).getD i 0 - (mixture [A, B] [a, b]).getD i 0)) =
      (List.range 25).map (fun d => if d < 2 then
        (fun j => if j = 0 then (p - a * p) * (p - a * p) else (b * q) * (b * q)) d
        else 0) := by
    apply List.map_congr_left
    intro d hd
    have hd' : d < 25 := List.mem_range.mp hd
    unfold mixture
    rw [getD_scaledUnitVector _ _ d hd', getD_map_range _ 25 d 0 hd',
      mixtureAt_pair A B p q a b hA hB d hd']
    rcases Nat.lt_or_ge d 2 with h2 | h2
    · interval_cases d <;> simp
    · have h0 : d ≠ 0 := by omega
      have h1 : d ≠ 1 := by omega
      have h2' : ¬ d < 2 := by omega
      simp [h0, h1, h2']
  rw [hcongr, sum_range_truncate _ 2 25 (by norm_num)]
  simp [List.range_succ]

theorem solve_short_pair (sqrt : α → α) (hs0 : ∀ x, 0 ≤ x → 0 ≤ sqrt x)
    (hs : ∀ x, 0 ≤ x → sqrt x * sqrt x = x) (A B : Population α)
    (hA : A.Coordinates = scaledUnitVector 0 (3 / 1000))
    (hB : B.Coordinates = scaledUnitVector 1 (4 / 1000)) :
    solveAncestryProportions sqrt (scaledUnitVector 0 (3 / 1000)) [A, B] =
      .ok [{ Population := A, Proportion := 50000009 / 99999993 },
        { Population := B, Proportion := 49999984 / 99999993 }] := by
  have hvalid : ValidInput (scaledUnitVector 0 (3 / 1000) : List α) [A, B] := by
    refine ⟨by simp [scaledUnitVector], by simp, ?_⟩
    intro pop hpop
    rcases List.mem_cons.mp hpop with rfl | hpop
    · rw [hA]
      simp [scaledUnitVector]
    · rw [List.mem_singleton.mp hpop, hB]
      simp [scaledUnitVector]
  have hinit : (initialWeights [A, B].length : List α) = [1 / 2, 1 / 2] := by
    simp [initialWeights, List.replicate]
  have hupdate : updateWeights (scaledUnitVector 0 (3 / 1000)) [A, B] [(1 : α) / 2, 1 / 2] =
      [50000009 / 99999993, 49999984 / 99999993] := by
    rw [updateWeights_pair A B _ _ _ _ hA hB]
    unfold projectToSimplex learningRate degenerateSum
    norm_num
  have herr0 : distance sqrt (scaledUnitVector 0 (3 / 1000)) (mixture [A, B] [(1 : α) / 2, 1 / 2]) =
      1 / 400 := by
    rw [distance_pair sqrt A B _ _ _ _ hA hB]
    exact sqrt_eq_of_mul_self sqrt hs0 hs _ _ (by norm_num) (by norm_num)
  have herr1 : distance sqrt (scaledUnitVector 0 (3 / 1000))
      (mixture [A, B] [(50000009 : α) / 99999993, 49999984 / 99999993]) =
      49999984 / 99999993 / 200 := by
    rw [distance_pair sqrt A B _ _ _ _ hA hB]
    exact sqrt_eq_of_mul_self sqrt hs0 hs _ _ (by norm_num) (by norm_num)
  have hdescend : descend sqrt (scaledUnitVector 0 (3 / 1000)) [A, B] maxIterations none
      [(1 : α) / 2, 1 / 2] = [50000009 / 99999993, 49999984 / 99999993] := by
    have hmax : maxIterations = 9998 + 2 := rfl
    rw [hmax, descend]
    simp only [converged, Bool.false_eq_true, if_false]
    rw [hupdate, herr0, descend, herr1]
    have hconv : converged (some ((1 : α) / 400)) (49999984 / 99999993 / 200) = true := by
      unfold converged convergenceThreshold
      rw [decide_eq_true_iff, abs_lt]
      constructor <;> norm_num
    rw [if_pos hconv]
  rw [solveAncestryProportions_eq_ok sqrt _ _ hvalid, hinit, hdescend]
  simp [resultsOf, List.range_succ]

/-! ### Statements in exact arithmetic

The following hold over every linearly ordered field, with a square root that
is exact where one is used.  They say nothing of rounding, overflow or
underflow in `float64`. -/

/-- Simplex invariant in exact arithmetic: on every input that passes
validation (target of length 25, non-empty catalog, every population with 25 coordinates) the solver
returns results, every returned proportion lies between 0 and 1, and the
proportions sum to exactly 1, whichever way the loop stopped. -/
theorem solve_simplex_invariant (sqrt : α → α) (target : List α)
    (populations : List (Population α)) (ht : target.length = 25)
    (hne : populations ≠ [])
    (hc : ∀ pop ∈ populations, pop.Coordinates.length = 25) :
    ∃ results, solveAncestryProportions sqrt target populations = .ok results ∧
      (∀ r ∈ results, 0 ≤ r.Proportion ∧ r.Proportion ≤ 1) ∧
      (results.map (fun r => r.Proportion)).sum = 1 := by
  have hn : populations.length ≠ 0 := by simpa [List.length_eq_zero] using hne
  have hinit : (initialWeights populations.length : List α) ≠ [] := by
    intro h
    have := length_initialWeights (α := α) populations.length
    rw [h] at this
    exact hn this.symm
  have hs := descend_onSimplex sqrt target populations maxIterations none _ hinit
    (initialWeights_onSimplex populations.length hn)
  have hlen := (length_descend sqrt target populations maxIterations none
    (initialWeights populations.length)).trans (length_initialWeights _)
  refine ⟨_, solveAncestryProportions_eq_ok sqrt target populations ⟨ht, hne, hc⟩, ?_, ?_⟩
  · intro r hr
    have hmem : r.Proportion ∈ (resultsOf populations (descend sqrt target populations
        maxIterations none (initialWeights populations.length))).map
        (fun r => r.Proportion) := List.mem_map_of_mem _ hr
    rw [map_proportion_resultsOf _ _ hlen] at hmem
    exact ⟨hs.1 _ hmem, le_one_of_onSimplex _ hs _ hmem⟩
  · rw [map_proportion_resultsOf _ _ hlen]
    exact hs.2

/-- Instance of the simplex invariant on the two-population scenario over `ℚ`. -/
theorem solve_simplex_invariant_witness :
    ∃ results, solveAncestryProportions Rat.sqrt (halfHalfTarget : List ℚ)
        [scenarioPopulation "A" (unitVector 0), scenarioPopulation "B" (unitVector 1)] =
          .ok results ∧
      (∀ r ∈ results, 0 ≤ r.Proportion ∧ r.Proportion ≤ 1) ∧
      (results.map (fun r => r.Proportion)).sum = 1 :=
  solve_simplex_invariant Rat.sqrt halfHalfTarget
    [scenarioPopulation "A" (unitVector 0), scenarioPopulation "B" (unitVector 1)]
    (by simp [halfHalfTarget]) (by simp)
    (by simp [scenarioPopulation, unitVector])

/-- A catalog whose best mixture is not unique: with the catalog A = e1,
B = [0.5, 0.5, 0, ..., 0], C = e2 and the target equal to B's coordinates, the
uniform start already reproduces the target, the loop stops at its second
pass, and every population gets the proportion 1/3, which is not within 1e-3
of 1 for B. -/
theorem exact_reconstruction_midpoint_catalog :
    solveAncestryProportions Real.sqrt (halfHalfTarget : List ℝ)
        [scenarioPopulation "A" (unitVector 0), scenarioPopulation "B" halfHalfTarget,
          scenarioPopulation "C" (unitVector 1)] =
      .ok [{ Population := scenarioPopulation "A" (unitVector 0), Proportion := 1 / 3 },
        { Population := scenarioPopulation "B" halfHalfTarget, Proportion := 1 / 3 },
        { Population := scenarioPopulation "C" (unitVector 1), Proportion := 1 / 3 }] ∧
      (scenarioPopulation "B" (halfHalfTarget : List ℝ)).Coordinates = halfHalfTarget ∧
      ¬ |(1 / 3 : ℝ) - 1| ≤ 1 / 1000 := by
  have hvalid : ValidInput (halfHalfTarget : List ℝ)
      [scenarioPopulation "A" (unitVector 0), scenarioPopulation "B" halfHalfTarget,
        scenarioPopulation "C" (unitVector 1)] := by
    refine ⟨by simp [halfHalfTarget], by simp, ?_⟩
    intro pop hpop
    simp only [List.mem_cons, List.mem_singleton, List.not_mem_nil, or_false] at hpop
    rcases hpop with rfl | rfl | rfl <;> simp [scenarioPopulation, unitVector, halfHalfTarget]
  have hm : ∀ d, d < 25 →
      mixtureAt [scenarioPopulation "A" (unitVector 0),
          scenarioPopulation "B" (halfHalfTarget : List ℝ),
          scenarioPopulation "C" (unitVector 1)]
        (initialWeights [scenarioPopulation "A" (unitVector 0),
          scenarioPopulation "B" (halfHalfTarget : List ℝ),
          scenarioPopulation "C" (unitVector 1)].length) d =
        (halfHalfTarget : List ℝ).getD d 0 := by
    intro d hd
    simp only [mixtureAt, coordAt, initialWeights, scenarioPopulation, List.length_cons,
      List.length_nil, List.range_succ, List.range_zero, List.nil_append, List.cons_append,
      List.map_cons, List.map_nil, List.replicate, List.getD_cons_zero, List.getD_cons_succ,
      getD_unitVector _ d hd, getD_halfHalfTarget d hd, List.sum_cons, List.sum_nil]
    rcases Nat.lt_or_ge d 2 with h2 | h2
    · interval_cases d <;> norm_num
    · have h0 : d ≠ 0 := by omega
      have h1 : d ≠ 1 := by omega
      have h2' : ¬ d < 2 := by omega
      simp [h0, h1, h2']
  refine ⟨?_, rfl, by norm_num [abs_le]⟩
  rw [solve_of_uniform_mixture Real.sqrt _ _ hvalid hm]
  simp only [resultsOf, initialWeights, List.length_cons, List.length_nil, List.range_succ,
    List.range_zero, List.nil_append, List.cons_append, List.map_cons, List.map_nil,
    List.replicate, List.getD_cons_zero, List.getD_cons_succ]
  norm_num

/-- Exact reconstruction on catalogs of unit vectors, in exact arithmetic: for
every catalog of `n` populations, `1 ≤ n ≤ 25`, whose `i`-th population has the unit
vector with a one at position `i` as coordinates, every square-root function
that is non-negative and squares back to its argument on non-negative numbers,
and every index `k`, if the target equals the coordinates of population `k`
then the solver returns one result per population, in catalog order, with a
proportion within `1e-3` of 1 for population `k` and within `1e-3` of 0 for
every other population. -/
theorem exact_reconstruction_unit_catalog (sqrt : α → α)
    (hsqrt0 : ∀ x, 0 ≤ x → 0 ≤ sqrt x) (hsqrt : ∀ x, 0 ≤ x → sqrt x * sqrt x = x)
    (target : List α) (populations : List (Population α)) (hne : populations ≠ [])
    (h25 : populations.length ≤ 25) (hunit : UnitCatalog populations)
    (k : Nat) (popK : Population α) (hk : populations[k]? = some popK)
    (ht : target = popK.Coordinates) :
    ∃ results, solveAncestryProportions sqrt target populations = .ok results ∧
      results.length = populations.length ∧
      ∀ i r, results[i]? = some r →
        populations[i]? = some r.Population ∧
        (i = k → |r.Proportion - 1| ≤ 1 / 1000) ∧
        (i ≠ k → |r.Proportion - 0| ≤ 1 / 1000) := by
  have hkn : k < populations.length := by
    by_contra hge
    rw [List.getElem?_eq_none (not_lt.mp hge)] at hk
    cases hk
  have htarget : target = unitVector k := by rw [ht, hunit k popK hk]
  subst htarget
  obtain ⟨af, hdesc, haf, hsmall⟩ :=
    finalWeights_unit sqrt hsqrt0 hsqrt populations hunit h25 k hkn
  refine ⟨_, solveAncestryProportions_eq_ok sqrt _ populations
    (unitCatalog_valid populations hunit hne k), by simp [resultsOf], ?_⟩
  intro i r hr
  have hi : i < populations.length := by
    by_contra hge
    rw [List.getElem?_eq_none (by simpa [resultsOf] using hge)] at hr
    cases hr
  rw [getElem?_resultsOf _ _ i hi, hdesc, getD_peakedWeights _ k af i hi] at hr
  have hr' := Option.some.inj hr
  subst hr'
  refine ⟨getElem?_eq_some_getD populations i default hi, ?_, ?_⟩
  · intro hik
    have hnn : 0 ≤ ((populations.length : α) - 1) * af := by
      have : (1 : α) ≤ (populations.length : α) := by
        exact_mod_cast (show 1 ≤ populations.length by omega)
      exact mul_nonneg (by linarith) haf
    simp only [if_pos hik]
    rw [abs_le]
    constructor <;> linarith
  · intro hik
    have h2 : (2 : α) ≤ (populations.length : α) := by
      exact_mod_cast (show 2 ≤ populations.length by omega)
    simp only [if_neg hik, sub_zero]
    rw [abs_of_nonneg haf]
    nlinarith

/-- Instance of exact reconstruction on unit vectors: the catalog A = e1,
B = e2, C = e3 with the target equal to B's coordinates, over the reals with the real square root. -/
theorem exact_reconstruction_unit_catalog_witness :
    ∃ results, solveAncestryProportions Real.sqrt (unitVector 1 : List ℝ)
        [scenarioPopulation "A" (unitVector 0), scenarioPopulation "B" (unitVector 1),
          scenarioPopulation "C" (unitVector 2)] = .ok results ∧
      results.length = [scenarioPopulation "A" (unitVector 0),
        scenarioPopulation "B" (unitVector 1),
        scenarioPopulation "C" (unitVector 2 : List ℝ)].length ∧
      ∀ i r, results[i]? = some r →
        [scenarioPopulation "A" (unitVector 0), scenarioPopulation "B" (unitVector 1),
          scenarioPopulation "C" (unitVector 2 : List ℝ)][i]? = some r.Population ∧
        (i = 1 → |r.Proportion - 1| ≤ 1 / 1000) ∧
        (i ≠ 1 → |r.Proportion - 0| ≤ 1 / 1000) :=
  exact_reconstruction_unit_catalog Real.sqrt (fun x _ => Real.sqrt_nonneg x)
    (fun _ hx => Real.mul_self_sqrt hx) (unitVector 1)
    [scenarioPopulation "A" (unitVector 0), scenarioPopulation "B" (unitVector 1),
      scenarioPopulation "C" (unitVector 2)]
    (by simp) (by simp)
    (by
      intro i pop hpop
      match i, hpop with
      | 0, hpop => cases hpop; rfl
      | 1, hpop => cases hpop; rfl
      | 2, hpop => cases hpop; rfl
      | _ + 3, hpop => cases hpop)
    1 (scenarioPopulation "B" (unitVector 1)) rfl rfl

/-- Distance contract in exact arithmetic: with a square root that is
non-negative and squares back to its argument on non-negative numbers, `euclideanDistance(a, b)`
panics exactly when the lengths differ; when they are equal it returns the
square root of the sum over all positions of `(a_i - b_i)^2`, and that value
is non-negative and is zero exactly when `a = b`; the distance from `a` to `b`
is the distance from `b` to `a`. -/
theorem distance_contract (sqrt : α → α) (hs0 : ∀ x, 0 ≤ x → 0 ≤ sqrt x)
    (hs : ∀ x, 0 ≤ x → sqrt x * sqrt x = x) (a b : List α) :
    (euclideanDistance sqrt a b = none ↔ a.length ≠ b.length) ∧
      (a.length = b.length →
        euclideanDistance sqrt a b =
            some (sqrt (List.zipWith (fun x y => (x - y) ^ 2) a b).sum) ∧
          0 ≤ sqrt (List.zipWith (fun x y => (x - y) ^ 2) a b).sum ∧
          (sqrt (List.zipWith (fun x y => (x - y) ^ 2) a b).sum = 0 ↔ a = b)) ∧
      euclideanDistance sqrt a b = euclideanDistance sqrt b a := by
  refine ⟨euclideanDistance_eq_none_iff sqrt a b, ?_, ?_⟩
  · intro hlen
    refine ⟨?_, hs0 _ (sum_zipWith_sq_nonneg a b), ?_⟩
    · rw [euclideanDistance_eq sqrt a b hlen, distance_eq_zipWith sqrt a b hlen]
    · rw [sqrt_eq_zero_iff sqrt hs _ (sum_zipWith_sq_nonneg a b),
        sum_zipWith_sq_eq_zero_iff a b hlen]
  · by_cases hlen : a.length = b.length
    · rw [euclideanDistance_eq sqrt a b hlen, euclideanDistance_eq sqrt b a hlen.symm,
        distance_eq_zipWith sqrt a b hlen, distance_eq_zipWith sqrt b a hlen.symm,
        zipWith_sq_comm]
    · rw [(euclideanDistance_eq_none_iff sqrt a b).mpr hlen,
        (euclideanDistance_eq_none_iff sqrt b a).mpr (fun h => hlen h.symm)]

/-- Instance of the distance contract over the reals with the real square root. -/
theorem distance_contract_witness :
    (euclideanDistance Real.sqrt [3, 0] [0, 4] = none ↔
        [(3 : ℝ), 0].length ≠ [(0 : ℝ), 4].length) ∧
      ([(3 : ℝ), 0].length = [(0 : ℝ), 4].length →
        euclideanDistance Real.sqrt [3, 0] [0, 4] =
            some (Real.sqrt (List.zipWith (fun x y => (x - y) ^ 2) [3, 0] [0, 4]).sum) ∧
          0 ≤ Real.sqrt (List.zipWith (fun x y => (x - y) ^ 2) [3, 0] [0, 4]).sum ∧
          (Real.sqrt (List.zipWith (fun x y => (x - y) ^ 2) [3, 0] [0, 4]).sum = 0 ↔
            [(3 : ℝ), 0] = [0, 4])) ∧
      euclideanDistance Real.sqrt [3, 0] [0, 4] = euclideanDistance Real.sqrt [0, 4] [3, 0] :=
  distance_contract Real.sqrt (fun x _ => Real.sqrt_nonneg x)
    (fun _ hx => Real.mul_self_sqrt hx) [3, 0] [0, 4]

/-- Uniform fixed point in exact arithmetic: for every non-empty catalog of
populations with 25 coordinates, if the target is the `meanVector` of the populations'
coordinate vectors, then the first pass of the loop computes an error on which
the convergence test fails (the previous error is still `+Inf`), its update
returns the uniform weights unchanged, the second pass computes the same error
and the convergence test holds, so the loop exits there with the uniform
weights, and the solver returns one result per population, each with
proportion exactly `1/n`. -/
theorem uniform_fixed_point (sqrt : α → α) (target : List α)
    (populations : List (Population α)) (hne : populations ≠ [])
    (hc : ∀ pop ∈ populations, pop.Coordinates.length = 25)
    (hmean : meanVector (populations.map (fun pop => pop.Coordinates)) = some target) :
    ∃ currentError,
      (weightedAverage populations (initialWeights populations.length)).bind
        (euclideanDistance sqrt target) = some currentError ∧
      converged none currentError = false ∧
      loopUpdate target populations (initialWeights populations.length) =
        some (initialWeights populations.length) ∧
      converged (some currentError) currentError = true ∧
      solveLoop sqrt target populations 2 none (initialWeights populations.length) =
        some (initialWeights populations.length) ∧
      finalWeights sqrt target populations = some (initialWeights populations.length) ∧
      ∃ results, solveAncestryProportions sqrt target populations = .ok results ∧
        results.length = populations.length ∧
        ∀ r ∈ results, r.Proportion = 1 / (populations.length : α) := by
  obtain ⟨ht, hm⟩ := mixtureAt_of_meanVector target populations hne hc hmean
  have hn : populations.length ≠ 0 := by simpa [List.length_eq_zero] using hne
  have hlen := length_initialWeights (α := α) populations.length
  have hfix := updateWeights_eq_self target populations _
    (initialWeights_onSimplex (α := α) populations.length hn) hm
  refine ⟨distance sqrt target (mixture populations (initialWeights populations.length)),
    ?_, rfl, ?_, converged_self _, ?_, ?_, _,
    solve_of_uniform_mixture sqrt target populations ⟨ht, hne, hc⟩ hm, by simp [resultsOf], ?_⟩
  · rw [weightedAverage_eq populations _ hlen hc, Option.some_bind,
      euclideanDistance_eq sqrt target _ (by rw [ht, length_mixture])]
  · rw [loopUpdate_eq target populations _ ht hlen hc, hfix]
  · rw [solveLoop_eq sqrt target populations ht hc 2 none _ hlen,
      descend_of_fixed sqrt target populations _ hfix 0]
  · rw [finalWeights_eq sqrt target populations ht hc]
    have : maxIterations = 9998 + 2 := rfl
    rw [this, descend_of_fixed sqrt target populations _ hfix]
  · intro r hr
    have hmem : r.Proportion ∈ (resultsOf populations
        (initialWeights populations.length : List α)).map (fun r => r.Proportion) :=
      List.mem_map_of_mem _ hr
    rw [map_proportion_resultsOf _ _ hlen] at hmem
    exact List.eq_of_mem_replicate hmem

/-- Instance of the uniform fixed point: the catalog A = e1, B = e2, whose mean
vector is `[0.5, 0.5, 0, ..., 0]`, over `ℚ`. -/
theorem uniform_fixed_point_witness :
    ∃ currentError : ℚ,
      (weightedAverage
          [scenarioPopulation "A" (unitVector 0), scenarioPopulation "B" (unitVector 1)]
          (initialWeights [scenarioPopulation "A" (unitVector 0),
            scenarioPopulation "B" (unitVector 1 : List ℚ)].length)).bind
        (euclideanDistance Rat.sqrt halfHalfTarget) = some currentError ∧
      converged none currentError = false ∧
      loopUpdate (halfHalfTarget : List ℚ)
          [scenarioPopulation "A" (unitVector 0), scenarioPopulation "B" (unitVector 1)]
          (initialWeights [scenarioPopulation "A" (unitVector 0),
            scenarioPopulation "B" (unitVector 1 : List ℚ)].length) =
        some (initialWeights [scenarioPopulation "A" (unitVector 0),
          scenarioPopulation "B" (unitVector 1 : List ℚ)].length) ∧
      converged (some currentError) currentError = true ∧
      solveLoop Rat.sqrt halfHalfTarget
          [scenarioPopulation "A" (unitVector 0), scenarioPopulation "B" (unitVector 1)] 2 none
          (initialWeights [scenarioPopulation "A" (unitVector 0),
            scenarioPopulation "B" (unitVector 1 : List ℚ)].length) =
        some (initialWeights [scenarioPopulation "A" (unitVector 0),
          scenarioPopulation "B" (unitVector 1 : List ℚ)].length) ∧
      finalWeights Rat.sqrt halfHalfTarget
          [scenarioPopulation "A" (unitVector 0), scenarioPopulation "B" (unitVector 1)] =
        some (initialWeights [scenarioPopulation "A" (unitVector 0),
          scenarioPopulation "B" (unitVector 1 : List ℚ)].length) ∧
      ∃ results, solveAncestryProportions Rat.sqrt halfHalfTarget
          [scenarioPopulation "A" (unitVector 0), scenarioPopulation "B" (unitVector 1)] =
            .ok results ∧
        results.length = [scenarioPopulation "A" (unitVector 0),
          scenarioPopulation "B" (unitVector 1 : List ℚ)].length ∧
        ∀ r ∈ results, r.Proportion =
          1 / (([scenarioPopulation "A" (unitVector 0),
            scenarioPopulation "B" (unitVector 1 : List ℚ)].length : ℕ) : ℚ) :=
  uniform_fixed_point Rat.sqrt halfHalfTarget
    [scenarioPopulation "A" (unitVector 0), scenarioPopulation "B" (unitVector 1)]
    (by simp) (by simp [scenarioPopulation, unitVector]) meanVector_unit_pair

end Lemmas

/-! ## The claims -/

section Claims

variable {α : Type} [LinearOrderedField α]

/-- C2, dimension validation: when the target does not have 25 entries or some
population does not have 25 coordinates, the checks that precede the loop
produce an error of the kind DimensionMismatch and the solver returns exactly
that error (so no iteration runs and no result is returned); when moreover the
target has 25 entries and the catalog is not empty, the error carries the
index, the label and the length of the first population, in catalog order,
whose coordinates do not have 25 entries. -/
theorem dimension_validation (sqrt : α → α) (target : List α)
    (populations : List (Population α))
    (h : target.length ≠ 25 ∨ ∃ pop ∈ populations, pop.Coordinates.length ≠ 25) :
    (∃ err, validateInputs target populations = some err ∧
        err.isDimensionMismatch = true ∧
        solveAncestryProportions sqrt target populations = .error err) ∧
      (target.length = 25 → populations ≠ [] →
        ∃ i pop, populations[i]? = some pop ∧ pop.Coordinates.length ≠ 25 ∧
          (∀ j < i, ∀ q, populations[j]? = some q → q.Coordinates.length = 25) ∧
          solveAncestryProportions sqrt target populations =
            .error (.populationDimension i pop.Label pop.Coordinates.length)) := by
  have key : target.length = 25 →
      ∃ i pop, populations[i]? = some pop ∧ pop.Coordinates.length ≠ 25 ∧
        (∀ j < i, ∀ q, populations[j]? = some q → q.Coordinates.length = 25) ∧
        validateInputs target populations =
          some (.populationDimension i pop.Label pop.Coordinates.length) := by
    intro ht
    have hbad : ∃ pop ∈ populations, pop.Coordinates.length ≠ 25 := by
      rcases h with h | h
      · exact absurd ht h
      · exact h
    have hlen : populations.length ≠ 0 := by
      obtain ⟨pop, hmem, _⟩ := hbad
      exact List.length_pos_iff_ne_nil.mpr (List.ne_nil_of_mem hmem) |>.ne'
    obtain ⟨i, pop, hget, hne, hbefore, hfirst⟩ :=
      firstBadPopulation_eq_some populations 0 hbad
    refine ⟨i, pop, hget, hne, hbefore, ?_⟩
    unfold validateInputs
    rw [if_neg (by simpa using ht), if_neg hlen, hfirst]
    simp
  refine ⟨?_, ?_⟩
  · by_cases ht : target.length = 25
    · obtain ⟨i, pop, _, _, _, hv⟩ := key ht
      exact ⟨_, hv, rfl, by unfold solveAncestryProportions; rw [hv]⟩
    · have hv : validateInputs target populations =
          some (.targetDimension target.length) := by
        unfold validateInputs
        rw [if_pos ht]
      exact ⟨_, hv, rfl, by unfold solveAncestryProportions; rw [hv]⟩
  · intro ht _
    obtain ⟨i, pop, hget, hne, hbefore, hv⟩ := key ht
    exact ⟨i, pop, hget, hne, hbefore, by unfold solveAncestryProportions; rw [hv]⟩

/-- Witness of C2: a catalog whose second population has two coordinates. -/
theorem dimension_validation_witness :
    (∃ err, validateInputs (halfHalfTarget : List ℚ)
          [scenarioPopulation "A" (unitVector 0), scenarioPopulation "X" [1, 2]] = some err ∧
        err.isDimensionMismatch = true ∧
        solveAncestryProportions Rat.sqrt (halfHalfTarget : List ℚ)
          [scenarioPopulation "A" (unitVector 0), scenarioPopulation "X" [1, 2]] =
            .error err) ∧
      ((halfHalfTarget : List ℚ).length = 25 →
        [scenarioPopulation "A" (unitVector 0), scenarioPopulation "X" [(1 : ℚ), 2]] ≠ [] →
        ∃ i pop,
          [scenarioPopulation "A" (unitVector 0), scenarioPopulation "X" [(1 : ℚ), 2]][i]? =
            some pop ∧ pop.Coordinates.length ≠ 25 ∧
          (∀ j < i, ∀ q,
            [scenarioPopulation "A" (unitVector 0), scenarioPopulation "X" [(1 : ℚ), 2]][j]? =
              some q → q.Coordinates.length = 25) ∧
          solveAncestryProportions Rat.sqrt (halfHalfTarget : List ℚ)
            [scenarioPopulation "A" (unitVector 0), scenarioPopulation "X" [1, 2]] =
              .error (.populationDimension i pop.Label pop.Coordinates.length)) :=
  dimension_validation Rat.sqrt halfHalfTarget
    [scenarioPopulation "A" (unitVector 0), scenarioPopulation "X" [1, 2]]
    (Or.inr ⟨scenarioPopulation "X" [1, 2], by simp, by simp [scenarioPopulation]⟩)

/-- C3 as stated fails: with an empty target and an empty catalog the solver
returns the target-dimension error, not the EmptyCatalog error. -/
theorem empty_catalog_counterexample :
    solveAncestryProportions Rat.sqrt ([] : List ℚ) [] = .error (.targetDimension 0) ∧
      solveAncestryProportions Rat.sqrt ([] : List ℚ) [] ≠ .error .emptyCatalog := by
  have h : solveAncestryProportions Rat.sqrt ([] : List ℚ) [] =
      .error (.targetDimension 0) := by
    simp [solveAncestryProportions, validateInputs]
  refine ⟨h, ?_⟩
  rw [h]
  intro hcontra
  cases hcontra

/-- C3 amended, empty catalog rejection: for every target of length 25, the
solver called with an empty population list returns the EmptyCatalog error,
whose text is "no reference populations provided", and no results. -/
theorem empty_catalog_rejection (sqrt : α → α) (target : List α)
    (ht : target.length = 25) :
    solveAncestryProportions sqrt target [] = .error .emptyCatalog ∧
      SolveError.emptyCatalog.message = "no reference populations provided" := by
  refine ⟨?_, rfl⟩
  have hv : validateInputs target ([] : List (Population α)) = some .emptyCatalog := by
    unfold validateInputs
    rw [if_neg (by simpa using ht)]
    rfl
  unfold solveAncestryProportions
  rw [hv]

/-- Witness of C3 amended on the target of the two-population scenario. -/
theorem empty_catalog_rejection_witness :
    solveAncestryProportions Rat.sqrt (halfHalfTarget : List ℚ) [] = .error .emptyCatalog ∧
      SolveError.emptyCatalog.message = "no reference populations provided" :=
  empty_catalog_rejection Rat.sqrt halfHalfTarget (by simp [halfHalfTarget])

/-- C4, result shape: on every input that passes validation the solver returns
a list with one entry per population of the catalog, and entry `i` pairs the
`i`-th input population, unchanged, with the `i`-th of the weights with which
the descent loop exits. -/
theorem result_shape (sqrt : α → α) (target : List α)
    (populations : List (Population α)) (ht : target.length = 25)
    (hne : populations ≠ [])
    (hc : ∀ pop ∈ populations, pop.Coordinates.length = 25) :
    ∃ results weights,
      solveAncestryProportions sqrt target populations = .ok results ∧
      finalWeights sqrt target populations = some weights ∧
      results.length = populations.length ∧
      weights.length = populations.length ∧
      ∀ i, i < populations.length →
        ∃ pop w, populations[i]? = some pop ∧ weights[i]? = some w ∧
          results[i]? = some { Population := pop, Proportion := w } := by
  have hlen := (length_descend sqrt target populations maxIterations none
    (initialWeights populations.length)).trans (length_initialWeights _)
  refine ⟨_, _, solveAncestryProportions_eq_ok sqrt target populations ⟨ht, hne, hc⟩,
    finalWeights_eq sqrt target populations ht hc, by simp [resultsOf], hlen, ?_⟩
  intro i hi
  exact ⟨_, _, getElem?_eq_some_getD populations i default hi,
    getElem?_eq_some_getD _ i 0 (by omega), getElem?_resultsOf _ _ i hi⟩

/-- Witness of C4 on the two-population scenario over `ℚ`. -/
theorem result_shape_witness :
    ∃ results weights,
      solveAncestryProportions Rat.sqrt (halfHalfTarget : List ℚ)
        [scenarioPopulation "A" (unitVector 0), scenarioPopulation "B" (unitVector 1)] =
          .ok results ∧
      finalWeights Rat.sqrt (halfHalfTarget : List ℚ)
        [scenarioPopulation "A" (unitVector 0), scenarioPopulation "B" (unitVector 1)] =
          some weights ∧
      results.length =
        [scenarioPopulation "A" (unitVector 0),
          scenarioPopulation "B" (unitVector 1 : List ℚ)].length ∧
      weights.length =
        [scenarioPopulation "A" (unitVector 0),
          scenarioPopulation "B" (unitVector 1 : List ℚ)].length ∧
      ∀ i, i < [scenarioPopulation "A" (unitVector 0),
          scenarioPopulation "B" (unitVector 1 : List ℚ)].length →
        ∃ pop w,
          [scenarioPopulation "A" (unitVector 0),
            scenarioPopulation "B" (unitVector 1 : List ℚ)][i]? = some pop ∧
          weights[i]? = some w ∧
          results[i]? = some { Population := pop, Proportion := w } :=
  result_shape Rat.sqrt halfHalfTarget
    [scenarioPopulation "A" (unitVector 0), scenarioPopulation "B" (unitVector 1)]
    (by simp [halfHalfTarget]) (by simp)
    (by simp [scenarioPopulation, unitVector])

/-- C5, projector postcondition: for every non-empty vector, the vector that
`projectToSimplex` leaves has the same length, has no negative entry, and its
entries sum to exactly 1, in the renormalize branch and in the uniform
fallback branch alike. -/
theorem projector_postcondition (weights : List α) (hne : weights ≠ []) :
    (projectToSimplex weights).length = weights.length ∧
      (∀ w ∈ projectToSimplex weights, 0 ≤ w) ∧
      (projectToSimplex weights).sum = 1 :=
  ⟨length_projectToSimplex weights, (projectToSimplex_onSimplex weights hne).1,
    (projectToSimplex_onSimplex weights hne).2⟩

/-- Witness of C5 on a vector with a negative entry. -/
theorem projector_postcondition_witness :
    (projectToSimplex [(1 : ℚ), -2, 3]).length = [(1 : ℚ), -2, 3].length ∧
      (∀ w ∈ projectToSimplex [(1 : ℚ), -2, 3], 0 ≤ w) ∧
      (projectToSimplex [(1 : ℚ), -2, 3]).sum = 1 :=
  projector_postcondition [(1 : ℚ), -2, 3] (by simp)

/-- C6, projector definition and degenerate fallback: for every vector of
length `n ≥ 1`, with `s` the sum of `max(w_i, 0)`, `projectToSimplex` sets
every entry to `1 / n` when `s < 1e-10` and sets entry `i` to
`max(w_i, 0) / s` otherwise. -/
theorem projector_definition (weights : List α) (hn : 1 ≤ weights.length) :
    projectToSimplex weights = projectToSimplexSpec weights ∧
      ((weights.map (fun w => max w 0)).sum < 1 / 10000000000 →
        projectToSimplex weights =
          List.replicate weights.length (1 / (weights.length : α))) ∧
      (¬ (weights.map (fun w => max w 0)).sum < 1 / 10000000000 →
        projectToSimplex weights =
          weights.map (fun w => max w 0 / (weights.map (fun w => max w 0)).sum)) := by
  have _ := hn
  refine ⟨projectToSimplex_eq_spec weights, ?_, ?_⟩
  · intro hs
    rw [projectToSimplex_eq_spec, projectToSimplexSpec]
    exact if_pos hs
  · intro hs
    rw [projectToSimplex_eq_spec, projectToSimplexSpec]
    exact if_neg hs

/-- Witness of C6 on a vector with a negative entry. -/
theorem projector_definition_witness :
    projectToSimplex [(1 : ℚ), -2, 3] = projectToSimplexSpec [(1 : ℚ), -2, 3] ∧
      (([(1 : ℚ), -2, 3].map (fun w => max w 0)).sum < 1 / 10000000000 →
        projectToSimplex [(1 : ℚ), -2, 3] =
          List.replicate [(1 : ℚ), -2, 3].length (1 / ([(1 : ℚ), -2, 3].length : ℚ))) ∧
      (¬ ([(1 : ℚ), -2, 3].map (fun w => max w 0)).sum < 1 / 10000000000 →
        projectToSimplex [(1 : ℚ), -2, 3] =
          [(1 : ℚ), -2, 3].map
            (fun w => max w 0 / ([(1 : ℚ), -2, 3].map (fun w => max w 0)).sum)) :=
  projector_definition [(1 : ℚ), -2, 3] (by simp)

/-- C7 at a well-posed catalog, in exact arithmetic with the real square root:
for A = 0.003 e1, B = 0.004 e2 and the target equal to A's coordinates, the
first pass moves the weights from [1/2, 1/2] to
[50000009/99999993, 49999984/99999993], the second pass finds the error
changed by less than `1e-6` and stops, and the solver returns these weights,
about [0.5000001, 0.4999999]: population A, whose coordinates are the target,
is not within `1e-3` of 1, and B is not within `1e-3` of 0. -/
theorem exact_reconstruction_failing_input :
    solveAncestryProportions Real.sqrt (scaledUnitVector 0 (3 / 1000) : List ℝ)
        [scenarioPopulation "A" (scaledUnitVector 0 (3 / 1000)),
          scenarioPopulation "B" (scaledUnitVector 1 (4 / 1000))] =
      .ok [{ Population := scenarioPopulation "A" (scaledUnitVector 0 (3 / 1000)),
             Proportion := 50000009 / 99999993 },
        { Population := scenarioPopulation "B" (scaledUnitVector 1 (4 / 1000)),
          Proportion := 49999984 / 99999993 }] ∧
      (scenarioPopulation "A" (scaledUnitVector 0 (3 / 1000) : List ℝ)).Coordinates =
        scaledUnitVector 0 (3 / 1000) ∧
      ¬ |(50000009 / 99999993 : ℝ) - 1| ≤ 1 / 1000 ∧
      ¬ |(49999984 / 99999993 : ℝ) - 0| ≤ 1 / 1000 := by
  refine ⟨solve_short_pair Real.sqrt (fun x _ => Real.sqrt_nonneg x)
    (fun _ hx => Real.mul_self_sqrt hx) _ _ rfl rfl, rfl, ?_, ?_⟩
  · rw [abs_le]
    norm_num
  · rw [abs_le]
    norm_num

/-- C8, two-population scenario: with catalog `[A, B]`, where A has the unit
vector `e1` and B the unit vector `e2` as coordinates, and target
`[0.5, 0.5, 0, ..., 0]`, the solver succeeds and returns for A and for B a
proportion that is exactly `1/2`, hence within `1e-2` of `0.5`. -/
theorem two_population_scenario (sqrt : α → α) (A B : Population α)
    (hA : A.Coordinates = unitVector 0) (hB : B.Coordinates = unitVector 1) :
    ∃ a b, solveAncestryProportions sqrt halfHalfTarget [A, B] =
        .ok [{ Population := A, Proportion := a }, { Population := B, Proportion := b }] ∧
      a = 1 / 2 ∧ b = 1 / 2 ∧ |a - 1 / 2| ≤ 1 / 100 ∧ |b - 1 / 2| ≤ 1 / 100 := by
  have hvalid : ValidInput (halfHalfTarget : List α) [A, B] := by
    refine ⟨by simp [halfHalfTarget], by simp, ?_⟩
    intro pop hpop
    rcases List.mem_cons.mp hpop with rfl | hpop
    · rw [hA]
      simp [unitVector]
    · rw [List.mem_singleton.mp hpop, hB]
      simp [unitVector]
  have hm : ∀ d, d < 25 →
      mixtureAt [A, B] (initialWeights [A, B].length) d =
        (halfHalfTarget : List α).getD d 0 := by
    intro d hd
    rw [getD_halfHalfTarget d hd]
    simp only [mixtureAt, coordAt, initialWeights, List.length_cons, List.length_nil,
      List.range_succ, List.range_zero, List.nil_append, List.cons_append, List.map_cons,
      List.map_nil, List.replicate, List.getD_cons_zero, List.getD_cons_succ, hA, hB,
      getD_unitVector _ d hd, List.sum_cons, List.sum_nil]
    rcases Nat.lt_or_ge d 2 with h2 | h2
    · interval_cases d <;> norm_num
    · have h0 : d ≠ 0 := by omega
      have h1 : d ≠ 1 := by omega
      have h2' : ¬ d < 2 := by omega
      simp [h0, h1, h2']
  refine ⟨1 / 2, 1 / 2, ?_, rfl, rfl, by norm_num, by norm_num⟩
  rw [solve_of_uniform_mixture sqrt _ _ hvalid hm]
  simp only [resultsOf, initialWeights, List.length_cons, List.length_nil, List.range_succ,
    List.range_zero, List.nil_append, List.cons_append, List.map_cons, List.map_nil,
    List.replicate, List.getD_cons_zero, List.getD_cons_succ]
  norm_num

/-- Witness of C8 over the reals with the real square root. -/
theorem two_population_scenario_witness :
    ∃ a b, solveAncestryProportions Real.sqrt halfHalfTarget
        [scenarioPopulation "A" (unitVector 0), scenarioPopulation "B" (unitVector 1)] =
        .ok [{ Population := scenarioPopulation "A" (unitVector 0), Proportion := a },
          { Population := scenarioPopulation "B" (unitVector 1), Proportion := b }] ∧
      a = 1 / 2 ∧ b = 1 / 2 ∧ |a - 1 / 2| ≤ 1 / 100 ∧ |b - 1 / 2| ≤ 1 / 100 :=
  two_population_scenario Real.sqrt (scenarioPopulation "A" (unitVector 0))
    (scenarioPopulation "B" (unitVector 1)) rfl rfl

/-- C9, permutation invariance: for every input that passes validation and
every reordering of the catalog by a permutation `idx` of its indices, solving
against the reordered catalog succeeds and returns the results of the original
solve reordered in the same way, with the same proportion for each population;
the reordered results are a permutation of the original ones, so the
collection of (label, proportion) pairs is unchanged. -/
theorem permutation_invariance (sqrt : α → α) (target : List α)
    (populations : List (Population α)) (ht : target.length = 25)
    (hne : populations ≠ [])
    (hc : ∀ pop ∈ populations, pop.Coordinates.length = 25)
    (idx : List Nat) (hp : idx.Perm (List.range populations.length)) :
    ∃ results, solveAncestryProportions sqrt target populations = .ok results ∧
      solveAncestryProportions sqrt target (permute idx populations) =
        .ok (permute idx results) ∧
      (permute idx results).Perm results ∧
      ((permute idx results).map (fun r => (r.Population.Label, r.Proportion))).Perm
        (results.map (fun r => (r.Population.Label, r.Proportion))) := by
  haveI : Inhabited (AncestryResult α) := ⟨⟨default, 0⟩⟩
  have hidx := lt_of_mem_of_perm_range idx _ hp
  have hlenIdx : idx.length = populations.length := by simpa using hp.length_eq
  have hpops : permute idx populations = idx.map (fun i => populations.getD i default) :=
    permute_eq_map idx populations default hidx
  have hpermPops : (permute idx populations).Perm populations :=
    permute_perm idx populations hp
  have hvalid : ValidInput target (permute idx populations) := by
    refine ⟨ht, ?_, fun pop hpop => hc pop (hpermPops.mem_iff.mp hpop)⟩
    intro hnil
    have := hpermPops.length_eq
    rw [hnil] at this
    exact hne (List.length_eq_zero.mp this.symm)
  have hlenRes : (resultsOf populations (descend sqrt target populations maxIterations none
      (initialWeights populations.length))).length = populations.length := by
    simp [resultsOf]
  have hpermRes := permute_perm idx (resultsOf populations (descend sqrt target populations
    maxIterations none (initialWeights populations.length))) (by rw [hlenRes]; exact hp)
  refine ⟨_, solveAncestryProportions_eq_ok sqrt target populations ⟨ht, hne, hc⟩, ?_,
    hpermRes, hpermRes.map _⟩
  rw [solveAncestryProportions_eq_ok sqrt target _ hvalid, hpops, List.length_map,
    initialWeights_reorder idx populations.length hp,
    descend_reorder sqrt target populations idx hp _ _ _ (length_initialWeights _),
    resultsOf_reorder populations _ idx hp]

/-- Witness of C9: the two-population scenario with the catalog swapped. -/
theorem permutation_invariance_witness :
    ∃ results, solveAncestryProportions Rat.sqrt (halfHalfTarget : List ℚ)
        [scenarioPopulation "A" (unitVector 0), scenarioPopulation "B" (unitVector 1)] =
          .ok results ∧
      solveAncestryProportions Rat.sqrt (halfHalfTarget : List ℚ)
        (permute [1, 0]
          [scenarioPopulation "A" (unitVector 0), scenarioPopulation "B" (unitVector 1)]) =
        .ok (permute [1, 0] results) ∧
      (permute [1, 0] results).Perm results ∧
      ((permute [1, 0] results).map (fun r => (r.Population.Label, r.Proportion))).Perm
        (results.map (fun r => (r.Population.Label, r.Proportion))) :=
  permutation_invariance Rat.sqrt halfHalfTarget
    [scenarioPopulation "A" (unitVector 0), scenarioPopulation "B" (unitVector 1)]
    (by simp [halfHalfTarget]) (by simp)
    (by simp [scenarioPopulation, unitVector])
    [1, 0] (List.Perm.swap 0 1 [])

/-- C10, result ranking: for every list of results, `sortAncestryResults`
leaves a permutation of the list it was given (nothing added, removed or
changed) whose proportions never increase from first to last. -/
theorem ranking_sorted_permutation (results : List (AncestryResult α)) :
    (sortAncestryResults results).Perm results ∧
      (sortAncestryResults results).Pairwise (fun a b => b.Proportion ≤ a.Proportion) := by
  refine ⟨sortSlice_perm _ results, ?_⟩
  unfold sortAncestryResults
  induction results with
  | nil => simp [sortSlice]
  | cons x xs ih =>
    rw [sortSlice]
    exact insertSorted_descending x _ ih

/-- C11, no reachable failure after validation: on every input that passes
validation the solver returns results, neither an error nor a panic.  For
every weight vector with one entry per population, which is what the loop
holds at every pass, `weightedAverage` returns a vector of length 25, so the
length check of `euclideanDistance` passes and it returns a value, and the
gradient computation, the gradient step and the construction of the results
make no index out of range; the weights after the pass again have one entry
per population, and the loop run from such weights returns weights. -/
theorem no_failure_after_validation (sqrt : α → α) (target : List α)
    (populations : List (Population α)) (ht : target.length = 25)
    (hne : populations ≠ [])
    (hc : ∀ pop ∈ populations, pop.Coordinates.length = 25) :
    (∃ results, solveAncestryProportions sqrt target populations = .ok results) ∧
      (∀ weights : List α, weights.length = populations.length →
        ∃ weighted currentError gradients stepped results,
          weightedAverage populations weights = some weighted ∧
          weighted.length = 25 ∧
          euclideanDistance sqrt target weighted = some currentError ∧
          computeGradients target populations weights = some gradients ∧
          gradients.length = populations.length ∧
          gradientStep weights gradients = some stepped ∧
          (projectToSimplex stepped).length = populations.length ∧
          buildResults populations weights = some results) ∧
      (∀ remaining prevError, ∀ weights : List α, weights.length = populations.length →
        ∃ final, solveLoop sqrt target populations remaining prevError weights =
            some final ∧ final.length = populations.length) := by
  refine ⟨⟨_, solveAncestryProportions_eq_ok sqrt target populations ⟨ht, hne, hc⟩⟩, ?_, ?_⟩
  · intro weights hw
    exact ⟨_, _, _, _, _, weightedAverage_eq populations weights hw hc,
      length_mixture populations weights,
      euclideanDistance_eq sqrt target _ (by rw [ht, length_mixture]),
      computeGradients_eq target populations weights ht hw hc, by simp,
      gradientStep_eq target populations weights hw,
      by rw [length_projectToSimplex, length_steppedWeights, hw],
      buildResults_eq populations weights hw⟩
  · intro remaining prevError weights hw
    exact ⟨_, solveLoop_eq sqrt target populations ht hc remaining prevError weights hw,
      by rw [length_descend, hw]⟩

/-- Witness of C11 on the two-population scenario over `ℚ`. -/
theorem no_failure_after_validation_witness :
    (∃ results, solveAncestryProportions Rat.sqrt (halfHalfTarget : List ℚ)
        [scenarioPopulation "A" (unitVector 0), scenarioPopulation "B" (unitVector 1)] =
          .ok results) ∧
      (∀ weights : List ℚ, weights.length =
          [scenarioPopulation "A" (unitVector 0),
            scenarioPopulation "B" (unitVector 1 : List ℚ)].length →
        ∃ weighted currentError gradients stepped results,
          weightedAverage
            [scenarioPopulation "A" (unitVector 0), scenarioPopulation "B" (unitVector 1)]
            weights = some weighted ∧
          weighted.length = 25 ∧
          euclideanDistance Rat.sqrt halfHalfTarget weighted = some currentError ∧
          computeGradients halfHalfTarget
            [scenarioPopulation "A" (unitVector 0), scenarioPopulation "B" (unitVector 1)]
            weights = some gradients ∧
          gradients.length =
            [scenarioPopulation "A" (unitVector 0),
              scenarioPopulation "B" (unitVector 1 : List ℚ)].length ∧
          gradientStep weights gradients = some stepped ∧
          (projectToSimplex stepped).length =
            [scenarioPopulation "A" (unitVector 0),
              scenarioPopulation "B" (unitVector 1 : List ℚ)].length ∧
          buildResults
            [scenarioPopulation "A" (unitVector 0), scenarioPopulation "B" (unitVector 1)]
            weights = some results) ∧
      (∀ remaining prevError, ∀ weights : List ℚ, weights.length =
          [scenarioPopulation "A" (unitVector 0),
            scenarioPopulation "B" (unitVector 1 : List ℚ)].length →
        ∃ final, solveLoop Rat.sqrt halfHalfTarget
            [scenarioPopulation "A" (unitVector 0), scenarioPopulation "B" (unitVector 1)]
            remaining prevError weights = some final ∧
          final.length =
            [scenarioPopulation "A" (unitVector 0),
              scenarioPopulation "B" (unitVector 1 : List ℚ)].length) :=
  no_failure_after_validation Rat.sqrt halfHalfTarget
    [scenarioPopulation "A" (unitVector 0), scenarioPopulation "B" (unitVector 1)]
    (by simp [halfHalfTarget]) (by simp)
    (by simp [scenarioPopulation, unitVector])

/-- C12, bounded iteration: on every input that passes validation the loop
returns, and the weights it returns are the uniform initial weights after `k`
applications of the gradient-step-then-project update for some `k` with
`1 ≤ k ≤ 10000`; while the previous error still holds its initial value
`+Inf` the convergence test fails whatever the current error is, so the first
pass always applies the update. -/
theorem bounded_iteration (sqrt : α → α) (target : List α)
    (populations : List (Population α)) (ht : target.length = 25)
    (hne : populations ≠ [])
    (hc : ∀ pop ∈ populations, pop.Coordinates.length = 25) :
    (∃ k weights, 1 ≤ k ∧ k ≤ 10000 ∧
        finalWeights sqrt target populations = some weights ∧
        applyUpdates target populations k (initialWeights populations.length) =
          some weights ∧
        ∃ results, solveAncestryProportions sqrt target populations = .ok results ∧
          results.map (fun r => r.Proportion) = weights) ∧
      ∀ currentError : α, converged none currentError = false := by
  refine ⟨?_, fun _ => rfl⟩
  obtain ⟨k, hk, hdesc, hpos⟩ := descend_eq_iterate sqrt target populations maxIterations
    none (initialWeights populations.length)
  have hlen := (length_descend sqrt target populations maxIterations none
    (initialWeights populations.length)).trans (length_initialWeights _)
  refine ⟨k, _, hpos rfl (by unfold maxIterations; omega), hk,
    finalWeights_eq sqrt target populations ht hc, ?_, _,
    solveAncestryProportions_eq_ok sqrt target populations ⟨ht, hne, hc⟩,
    map_proportion_resultsOf _ _ hlen⟩
  rw [applyUpdates_eq target populations ht hc k _ (length_initialWeights _), hdesc]

/-- Witness of C12 on the two-population scenario over `ℚ`. -/
theorem bounded_iteration_witness :
    (∃ k weights, 1 ≤ k ∧ k ≤ 10000 ∧
        finalWeights Rat.sqrt (halfHalfTarget : List ℚ)
          [scenarioPopulation "A" (unitVector 0), scenarioPopulation "B" (unitVector 1)] =
            some weights ∧
        applyUpdates (halfHalfTarget : List ℚ)
          [scenarioPopulation "A" (unitVector 0), scenarioPopulation "B" (unitVector 1)] k
          (initialWeights [scenarioPopulation "A" (unitVector 0),
            scenarioPopulation "B" (unitVector 1 : List ℚ)].length) = some weights ∧
        ∃ results, solveAncestryProportions Rat.sqrt (halfHalfTarget : List ℚ)
            [scenarioPopulation "A" (unitVector 0), scenarioPopulation "B" (unitVector 1)] =
              .ok results ∧
          results.map (fun r => r.Proportion) = weights) ∧
      ∀ currentError : ℚ, converged none currentError = false :=
  bounded_iteration Rat.sqrt halfHalfTarget
    [scenarioPopulation "A" (unitVector 0), scenarioPopulation "B" (unitVector 1)]
    (by simp [halfHalfTarget]) (by simp)
    (by simp [scenarioPopulation, unitVector])

/-- C14, normalization: with a square root that is non-negative and squares
back to its argument on non-negative numbers, `normalizeVector(v)` has the
length of `v`; the norm is the square root of the sum of the squares; when the
norm is below `1e-10` the result is the all-zero vector, and otherwise every
entry is `v_i` divided by the norm and the norm of the result is exactly 1. -/
theorem normalization_contract (sqrt : α → α) (hs0 : ∀ x, 0 ≤ x → 0 ≤ sqrt x)
    (hs : ∀ x, 0 ≤ x → sqrt x * sqrt x = x) (v : List α) :
    (normalizeVector sqrt v).length = v.length ∧
      vectorNorm sqrt v = sqrt (v.map (fun x => x ^ 2)).sum ∧
      (vectorNorm sqrt v < 1 / 10000000000 →
        normalizeVector sqrt v = List.replicate v.length 0) ∧
      (¬ vectorNorm sqrt v < 1 / 10000000000 →
        normalizeVector sqrt v = v.map (fun x => x / vectorNorm sqrt v) ∧
          vectorNorm sqrt (normalizeVector sqrt v) = 1) := by
  have hnorm : vectorNorm sqrt v = sqrt (v.map (fun x => x ^ 2)).sum := by
    unfold vectorNorm
    rw [foldl_sq_eq_sum]
  have hsum0 : 0 ≤ (v.map (fun x => x ^ 2)).sum := by
    apply List.sum_nonneg
    intro x hx
    obtain ⟨y, _, rfl⟩ := List.mem_map.mp hx
    positivity
  refine ⟨?_, hnorm, ?_, ?_⟩
  · unfold normalizeVector vectorScale
    dsimp only
    split <;> simp
  · intro hsmall
    unfold normalizeVector
    dsimp only
    rw [if_pos hsmall, vectorScale, List.eq_replicate_iff]
    refine ⟨by simp, ?_⟩
    intro x hx
    obtain ⟨y, _, rfl⟩ := List.mem_map.mp hx
    exact mul_zero y
  · intro hbig
    have hpos : 0 < vectorNorm sqrt v :=
      lt_of_lt_of_le (by norm_num) (le_of_not_lt hbig)
    have hscaled : normalizeVector sqrt v = v.map (fun x => x / vectorNorm sqrt v) := by
      unfold normalizeVector
      dsimp only
      rw [if_neg hbig, vectorScale]
      apply List.map_congr_left
      intro x _
      rw [mul_one_div]
    refine ⟨hscaled, ?_⟩
    have hsq : vectorNorm sqrt v ^ 2 = (v.map (fun x => x ^ 2)).sum := by
      rw [hnorm, pow_two, hs _ hsum0]
    have hone : sqrt 1 = 1 := by
      have h1 := hs 1 zero_le_one
      have h0 := hs0 1 zero_le_one
      exact (mul_self_inj h0 zero_le_one).mp (by rw [h1, mul_one])
    have hnorm' : vectorNorm sqrt (v.map (fun x => x / vectorNorm sqrt v)) =
        sqrt (((v.map (fun x => x / vectorNorm sqrt v)).map (fun x => x ^ 2)).sum) := by
      unfold vectorNorm
      rw [foldl_sq_eq_sum]
    rw [hscaled, hnorm', sum_sq_map_div, ← hsq, div_self (pow_ne_zero 2 hpos.ne'), hone]

/-- Witness of C14 over the reals with the real square root. -/
theorem normalization_contract_witness :
    (normalizeVector Real.sqrt [3, 4]).length = [(3 : ℝ), 4].length ∧
      vectorNorm Real.sqrt [3, 4] = Real.sqrt ([(3 : ℝ), 4].map (fun x => x ^ 2)).sum ∧
      (vectorNorm Real.sqrt [3, 4] < 1 / 10000000000 →
        normalizeVector Real.sqrt [3, 4] = List.replicate [(3 : ℝ), 4].length 0) ∧
      (¬ vectorNorm Real.sqrt [3, 4] < 1 / 10000000000 →
        normalizeVector Real.sqrt [3, 4] =
            [(3 : ℝ), 4].map (fun x => x / vectorNorm Real.sqrt [3, 4]) ∧
          vectorNorm Real.sqrt (normalizeVector Real.sqrt [3, 4]) = 1) :=
  normalization_contract Real.sqrt (fun x _ => Real.sqrt_nonneg x)
    (fun _ hx => Real.mul_self_sqrt hx) [3, 4]

/-- C15, presentation filter and renormalization: for every result list, the
rows of `displayResults` come from a list `shown` that holds exactly the
results with proportion above `0.001` (a permutation of them), in
non-increasing order of proportion; row by row it gives the label and
`proportion / (sum of the proportions of shown) * 100`; and when `shown` is
not empty these percentages sum to exactly 100. -/
theorem presentation_rows (results : List (AncestryResult α)) :
    ∃ shown : List (AncestryResult α),
      shown.Perm (results.filter (fun r => decide (r.Proportion > 1 / 1000))) ∧
      shown.Pairwise (fun a b => b.Proportion ≤ a.Proportion) ∧
      displayResults results =
        shown.map (fun r => (r.Population.Label,
          r.Proportion / (shown.map (fun r => r.Proportion)).sum * 100)) ∧
      (shown ≠ [] → ((displayResults results).map Prod.snd).sum = 100) := by
  have hperm : (sortAncestryResults results).Perm results := sortSlice_perm _ results
  have hsorted : (sortAncestryResults results).Pairwise
      (fun a b => b.Proportion ≤ a.Proportion) := by
    unfold sortAncestryResults
    induction results with
    | nil => simp [sortSlice]
    | cons x xs ih =>
      rw [sortSlice]
      exact insertSorted_descending x _ (ih (sortSlice_perm _ xs))
  refine ⟨(sortAncestryResults results).filter (fun r => decide (r.Proportion > 1 / 1000)),
    hperm.filter _, hsorted.filter _, displayResults_eq results, ?_⟩
  intro hne
  rw [displayResults_eq, List.map_map]
  have hfun : (Prod.snd ∘ fun r : AncestryResult α => (r.Population.Label,
        r.Proportion / (((sortAncestryResults results).filter
          (fun r => decide (r.Proportion > 1 / 1000))).map
            (fun r => r.Proportion)).sum * 100)) =
      (fun x : α => x / (((sortAncestryResults results).filter
          (fun r => decide (r.Proportion > 1 / 1000))).map
            (fun r => r.Proportion)).sum * 100) ∘ fun r => r.Proportion := rfl
  rw [hfun, ← List.map_map, sum_map_div_mul]
  have hpos : 0 < (((sortAncestryResults results).filter
      (fun r => decide (r.Proportion > 1 / 1000))).map (fun r => r.Proportion)).sum := by
    apply List.sum_pos
    · intro x hx
      obtain ⟨r, hr, rfl⟩ := List.mem_map.mp hx
      have hgt : r.Proportion > 1 / 1000 := by simpa using (List.mem_filter.mp hr).2
      exact lt_trans (by norm_num) hgt
    · simpa using hne
  rw [div_self hpos.ne', one_mul]

/-- Witness of C15 on three results, one of them below the display filter. -/
theorem presentation_rows_witness :
    ∃ shown : List (AncestryResult ℚ),
      shown.Perm
        ([{ Population := scenarioPopulation "A" [], Proportion := 1 / 4 },
          { Population := scenarioPopulation "B" [], Proportion := 1 / 2000 },
          { Population := scenarioPopulation "C" [], Proportion := 3 / 4 }].filter
            (fun r => decide (r.Proportion > 1 / 1000))) ∧
      shown.Pairwise (fun a b => b.Proportion ≤ a.Proportion) ∧
      displayResults
          [{ Population := scenarioPopulation "A" [], Proportion := (1 : ℚ) / 4 },
            { Population := scenarioPopulation "B" [], Proportion := 1 / 2000 },
            { Population := scenarioPopulation "C" [], Proportion := 3 / 4 }] =
        shown.map (fun r => (r.Population.Label,
          r.Proportion / (shown.map (fun r => r.Proportion)).sum * 100)) ∧
      (shown ≠ [] →
        ((displayResults
          [{ Population := scenarioPopulation "A" [], Proportion := (1 : ℚ) / 4 },
            { Population := scenarioPopulation "B" [], Proportion := 1 / 2000 },
            { Population := scenarioPopulation "C" [], Proportion := 3 / 4 }]).map
          Prod.snd).sum = 100) :=
  presentation_rows _

/-- C16 as stated fails: the file with a line of three spaces followed by a
well-formed line has two lines that are not empty and do not start with `#`,
yet the parse succeeds and returns one population, because the line of spaces
is trimmed to the empty string and skipped. -/
theorem loader_blank_line_counterexample :
    parseG25File (parseDigits : String → Option ℚ) "bronze"
        (some { lines := ["   ", sampleLine], readFailed := false }) =
      .ok [{ Label := "Pop_A",
             Coordinates := (List.range 25).map (fun n => ((n + 1 : ℕ) : ℚ)),
             Period := "bronze" }] ∧
      (["   ", sampleLine].filter
        (fun text => decide (text ≠ "" ∧ text.data.head? ≠ some '#'))).length = 2 := by
  refine ⟨rfl, ?_⟩
  decide

omit [LinearOrderedField α] in
/-- C16 amended, loader output contract: a data line is a line that, once
trimmed of surrounding white space, is not empty and does not start with `#`.
If `parseG25File` succeeds, the returned list is not empty, it holds one
population per data line, in file order, each with the label and the parsed
coordinates of its line and the period of the file, and every returned
population has exactly 25 coordinates.  A data line that is not a label
followed by exactly 25 comma-separated fields, or that has a field that is not
a number, makes the whole parse fail, with an error that carries that line's
number: the parse stops at the first such line of the file.  A file with no
data line is an error. -/
theorem loader_contract (parseFloat : String → Option α) (period : String)
    (file : ScannedFile) :
    (∀ populations, parseG25File parseFloat period (some file) = .ok populations →
        populations ≠ [] ∧
        List.Forall₂ (LineYields parseFloat period) populations
          (file.lines.filter isDataLine) ∧
        populations.length = (file.lines.filter isDataLine).length ∧
        ∀ pop ∈ populations, pop.Coordinates.length = 25) ∧
      (∀ i text, file.lines[i]? = some text → isDataLine text = true →
        ¬ WellFormedLine parseFloat text →
        (∃ err, parseG25File parseFloat period (some file) = .error err) ∧
        ((∀ j, j < i → ∀ t, file.lines[j]? = some t → isDataLine t = true →
            WellFormedLine parseFloat t) →
          ∃ err, parseG25File parseFloat period (some file) = .error err ∧
            err.lineNumber = some (i + 1))) ∧
      (file.lines.filter isDataLine = [] →
        ∃ err, parseG25File parseFloat period (some file) = .error err) := by
  refine ⟨?_, ?_, ?_⟩
  · intro populations hok
    obtain ⟨hne, hlines⟩ := parseG25File_ok parseFloat period file populations hok
    obtain ⟨added, hpops, hforall, hcoords, _⟩ :=
      parseLines_ok parseFloat period 0 file.lines [] populations hlines
    rw [List.nil_append] at hpops
    subst hpops
    exact ⟨hne, hforall, hforall.length_eq, hcoords⟩
  · intro i text hget hdata hbad
    refine ⟨?_, ?_⟩
    · cases hres : parseG25File parseFloat period (some file) with
      | error err => exact ⟨err, rfl⟩
      | ok populations =>
        obtain ⟨_, hlines⟩ := parseG25File_ok parseFloat period file populations hres
        obtain ⟨_, _, _, _, hall⟩ :=
          parseLines_ok parseFloat period 0 file.lines [] populations hlines
        exact absurd (hall text (List.mem_iff_getElem?.mpr ⟨i, hget⟩) hdata) hbad
    · intro hbefore
      obtain ⟨err, herr, hnum⟩ := parseLines_error_first parseFloat period 0 file.lines []
        i text hget hdata hbad hbefore
      exact ⟨err, parseG25File_error_of_lines parseFloat period file err herr,
        by rw [hnum, Nat.zero_add]⟩
  · intro hnone
    cases hres : parseG25File parseFloat period (some file) with
    | error err => exact ⟨err, rfl⟩
    | ok populations =>
      obtain ⟨hne, hlines⟩ := parseG25File_ok parseFloat period file populations hres
      obtain ⟨added, hpops, hforall, _, _⟩ :=
        parseLines_ok parseFloat period 0 file.lines [] populations hlines
      rw [hnone] at hforall
      cases hforall
      exact absurd hpops hne

/-- Witness of C16 amended: a file with a comment, an empty line and one
well-formed data line, read with `parseDigits`. -/
theorem loader_contract_witness :
    (∀ populations, parseG25File (parseDigits : String → Option ℚ) "bronze"
          (some { lines := ["# reference", "", sampleLine], readFailed := false }) =
            .ok populations →
        populations ≠ [] ∧
        List.Forall₂ (LineYields (parseDigits : String → Option ℚ) "bronze") populations
          (["# reference", "", sampleLine].filter isDataLine) ∧
        populations.length = (["# reference", "", sampleLine].filter isDataLine).length ∧
        ∀ pop ∈ populations, pop.Coordinates.length = 25) ∧
      (∀ i text, ["# reference", "", sampleLine][i]? = some text →
        isDataLine text = true →
        ¬ WellFormedLine (parseDigits : String → Option ℚ) text →
        (∃ err, parseG25File (parseDigits : String → Option ℚ) "bronze"
          (some { lines := ["# reference", "", sampleLine], readFailed := false }) =
            .error err) ∧
        ((∀ j, j < i → ∀ t, ["# reference", "", sampleLine][j]? = some t →
            isDataLine t = true → WellFormedLine (parseDigits : String → Option ℚ) t) →
          ∃ err, parseG25File (parseDigits : String → Option ℚ) "bronze"
            (some { lines := ["# reference", "", sampleLine], readFailed := false }) =
              .error err ∧
            err.lineNumber = some (i + 1))) ∧
      (["# reference", "", sampleLine].filter isDataLine = [] →
        ∃ err, parseG25File (parseDigits : String → Option ℚ) "bronze"
          (some { lines := ["# reference", "", sampleLine], readFailed := false }) =
            .error err) :=
  loader_contract parseDigits "bronze"
    { lines := ["# reference", "", sampleLine], readFailed := false }

/-- C17, gradient formula: at any weights with one entry per population (the
weights of every pass of the loop), for every population index `i` the value
that the solver's inner loops compute for `gradients[i]` is
`2 * dotProduct(vectorSubtract(weightedAverage(populations, weights), target),
populations[i].Coordinates)`; the weighted sum recomputed inline for dimension
`d` is entry `d` of `weightedAverage`; and over the reals this value is the
derivative, with respect to weight `i` at its current value, of the squared
Euclidean distance between the weighted mixture and the target. -/
theorem gradient_formula (target : List ℝ) (populations : List (Population ℝ))
    (weights : List ℝ) (ht : target.length = 25)
    (hw : weights.length = populations.length)
    (hc : ∀ pop ∈ populations, pop.Coordinates.length = 25)
    (i : Nat) (hi : i < populations.length) :
    ∃ weighted diff pop dot,
      weightedAverage populations weights = some weighted ∧
      (∀ d, d < 25 → weightedSumAt populations weights d = weighted[d]?) ∧
      vectorSubtract weighted target = some diff ∧
      populations[i]? = some pop ∧
      dotProduct diff pop.Coordinates = some dot ∧
      gradientAt target populations weights i = some (2 * dot) ∧
      HasDerivAt (fun x => (squaredError target populations (weights.set i x)).getD 0)
        (2 * dot) (weights.getD i 0) := by
  have hpop : populations.getD i default ∈ populations := by
    rw [List.getD_eq_getElem _ _ hi]
    exact List.getElem_mem _
  have hdot : ((List.range 25).map (fun d =>
        ((List.range 25).map (fun d =>
          (mixture populations weights).getD d 0 - target.getD d 0)).getD d 0 *
          (populations.getD i default).Coordinates.getD d 0)).sum =
      ((List.range 25).map (fun d =>
        (mixtureAt populations weights d - target.getD d 0) * coordAt populations i d)).sum := by
    refine congrArg List.sum ?_
    apply List.map_congr_left
    intro d hd
    have hd' : d < 25 := List.mem_range.mp hd
    rw [getD_map_range _ 25 d 0 hd']
    unfold mixture
    rw [getD_map_range _ 25 d 0 hd', coordAt]
  refine ⟨mixture populations weights,
    (List.range 25).map (fun d => (mixture populations weights).getD d 0 - target.getD d 0),
    populations.getD i default,
    ((List.range 25).map (fun d =>
      (mixtureAt populations weights d - target.getD d 0) * coordAt populations i d)).sum,
    weightedAverage_eq populations weights hw hc, ?_, ?_,
    getElem?_eq_some_getD populations i default hi, ?_, ?_, ?_⟩
  · intro d hd
    rw [weightedSumAt_eq populations weights d hw hc hd]
    unfold mixture
    rw [List.getElem?_map, List.getElem?_range hd]
    rfl
  · have h := vectorSubtract_eq (mixture populations weights) target
      (by rw [length_mixture, ht])
    rwa [length_mixture] at h
  · have h := dotProduct_eq
      ((List.range 25).map (fun d => (mixture populations weights).getD d 0 - target.getD d 0))
      (populations.getD i default).Coordinates
      (by rw [List.length_map, List.length_range, hc _ hpop])
    rw [h]
    simp only [List.length_map, List.length_range]
    rw [hdot]
  · rw [gradientAt_eq target populations weights i ht hw hc hi, gradAt_eq_two_mul_dot]
  · rw [← gradAt_eq_two_mul_dot]
    have hfun : (fun x => (squaredError target populations (weights.set i x)).getD 0) =
        fun x => (squaredError target populations weights).getD 0 +
          (x - weights.getD i 0) * gradAt target populations weights i +
          (x - weights.getD i 0) ^ 2 *
            ((List.range 25).map (fun d => coordAt populations i d ^ 2)).sum := by
      funext x
      exact squaredError_set target populations weights i x ht hw hc hi
    rw [hfun]
    have h1 : HasDerivAt (fun x : ℝ => x - weights.getD i 0) 1 (weights.getD i 0) :=
      (hasDerivAt_id _).sub_const _
    have h2 := ((h1.mul_const (gradAt target populations weights i)).const_add
      ((squaredError target populations weights).getD 0)).add
      ((h1.pow 2).mul_const ((List.range 25).map (fun d => coordAt populations i d ^ 2)).sum)
    convert h2 using 1
    simp

/-- Witness of C17 on the two-population scenario over the reals. -/
theorem gradient_formula_witness :
    ∃ weighted diff pop dot,
      weightedAverage
        [scenarioPopulation "A" (unitVector 0), scenarioPopulation "B" (unitVector 1)]
        [(1 : ℝ) / 4, 3 / 4] = some weighted ∧
      (∀ d, d < 25 → weightedSumAt
        [scenarioPopulation "A" (unitVector 0), scenarioPopulation "B" (unitVector 1)]
        [(1 : ℝ) / 4, 3 / 4] d = weighted[d]?) ∧
      vectorSubtract weighted halfHalfTarget = some diff ∧
      [scenarioPopulation "A" (unitVector 0),
        scenarioPopulation "B" (unitVector 1 : List ℝ)][0]? = some pop ∧
      dotProduct diff pop.Coordinates = some dot ∧
      gradientAt halfHalfTarget
        [scenarioPopulation "A" (unitVector 0), scenarioPopulation "B" (unitVector 1)]
        [(1 : ℝ) / 4, 3 / 4] 0 = some (2 * dot) ∧
      HasDerivAt (fun x => (squaredError halfHalfTarget
          [scenarioPopulation "A" (unitVector 0), scenarioPopulation "B" (unitVector 1)]
          ([(1 : ℝ) / 4, 3 / 4].set 0 x)).getD 0)
        (2 * dot) ([(1 : ℝ) / 4, 3 / 4].getD 0 0) :=
  gradient_formula halfHalfTarget
    [scenarioPopulation "A" (unitVector 0), scenarioPopulation "B" (unitVector 1)]
    [1 / 4, 3 / 4] (by simp [halfHalfTarget]) rfl
    (by simp [scenarioPopulation, unitVector]) 0 (by simp)

/-- C19, projector idempotence: for every non-empty vector, applying
`projectToSimplex` twice gives the same vector as applying it once, and a
vector whose entries are non-negative and sum to 1 is left unchanged. -/
theorem projector_idempotent (weights : List α) (hne : weights ≠ []) :
    projectToSimplex (projectToSimplex weights) = projectToSimplex weights ∧
      ((∀ w ∈ weights, 0 ≤ w) → weights.sum = 1 → projectToSimplex weights = weights) :=
  ⟨projectToSimplex_of_onSimplex _ (projectToSimplex_onSimplex weights hne),
    fun h0 h1 => projectToSimplex_of_onSimplex weights ⟨h0, h1⟩⟩

/-- Witness of C19 on a vector with a negative entry. -/
theorem projector_idempotent_witness :
    projectToSimplex (projectToSimplex [(1 : ℚ), -2, 3]) = projectToSimplex [(1 : ℚ), -2, 3] ∧
      ((∀ w ∈ [(1 : ℚ), -2, 3], 0 ≤ w) → [(1 : ℚ), -2, 3].sum = 1 →
        projectToSimplex [(1 : ℚ), -2, 3] = [(1 : ℚ), -2, 3]) :=
  projector_idempotent [(1 : ℚ), -2, 3] (by simp)

end Claims

end DnaClose
